import Mathlib

/-!
Verification of the sales classification-and-aggregation engine.

The development shallowly embeds the program's data model and operations:
JavaScript numbers are modelled as rationals (`ℚ`), JavaScript objects with
string keys (whose enumeration order is insertion order) are modelled as
association lists, and the fallible external classification call is modelled
by an explicit outcome datatype.
-/

/-! ## String utilities

`strContains s pat` models JavaScript `s.includes(pat)`: exact substring
containment, case- and diacritic-sensitive. -/

def charsPrefix : List Char → List Char → Bool
  | [], _ => true
  | _ :: _, [] => false
  | c :: cs, d :: ds => c = d && charsPrefix cs ds

def charsSub (pat : List Char) : List Char → Bool
  | [] => pat.isEmpty
  | d :: ds => charsPrefix pat (d :: ds) || charsSub pat ds

def strContains (s pat : String) : Bool :=
  charsSub pat.toList s.toList

/-! ## Data model (src/types.ts) -/

structure ProductData where
  productName : String
  quantity : ℚ
  refundQuantity : ℚ
  netQuantity : ℚ
  paymentCount : ℚ
  refundCount : ℚ
  netCount : ℚ
  amount : ℚ
  refundAmount : ℚ
  netAmount : ℚ
  majorCategory : Option String
  minorCategory : Option String
  share : Option ℚ
  deriving Repr, DecidableEq

structure FileData where
  fileName : String
  data : List ProductData
  totalAmount : ℚ
  totalNetAmount : ℚ
  totalNetQuantity : ℚ
  totalNetCount : ℚ
  deriving Repr, DecidableEq

structure CategoryMapping where
  productName : String
  major : String
  minor : String
  deriving Repr, DecidableEq

/-! ## Rule-based categorizer (src/services/excelService.ts)

`applyCustomCategorization` is the ordered decision list from the source,
embedded as the same chain of conditionals. -/

def BOOKSHELF_600_CODES : List String :=
  ["DSCC065N", "DSCC065SN", "DSCC065SSN",
   "DSCC066", "DSCC066S", "DSCC066SS",
   "DSCC465S", "DSCC465SS",
   "DSCC466S", "DSCC466SS",
   "DSCAB0605", "DSCAB0605S",
   "DSCAB0606", "DSCAB0606S"]

def BOARD_CODES : List String :=
  ["DSBAB1117M", "DSBAB0817M", "DSBAA0817M", "DSBAA1117M"]

def applyCustomCategorization (productName : String) : Option (String × String) :=
  -- 1. Accessories priority check
  if strContains productName "가방걸이" || strContains productName "수직배선커버" then
    some ("악세서리", "기타")
  -- 2. Control logic
  else if strContains productName "컨트롤" then
    some ("모션데스크", "컨트롤")
  -- 3. Standing desk logic
  else if strContains productName "스탠딩데스크" then
    some ("책상", "스탠딩데스크")
  -- 4. Deep wood bookshelf
  else if strContains productName "목제깊은" || strContains productName "깊은 목제" then
    some ("책장", "목제깊은책장")
  -- 5. 600-width bookshelf logic (specific codes)
  else if BOOKSHELF_600_CODES.any (fun code => strContains productName code) then
    some ("600폭 책장",
      if strContains productName "깊은" then "깊은수납형"
      else if strContains productName "서랍" then "서랍형"
      else "일반형")
  -- 6. Board logic (specific codes)
  else if BOARD_CODES.any (fun code => strContains productName code) then
    some ("보드",
      if strContains productName "화이트" then "화이트보드"
      else if strContains productName "목제" then "목제보드"
      else "기타")
  -- 7. Desk set logic
  else if strContains productName "책상세트" then
    some ("책상세트",
      if strContains productName "모션 멀티" then "모션멀티"
      else if strContains productName "모션 책상" then "모션책상세트"
      else if strContains productName "멀티책상" && !strContains productName "모션" then "멀티세트"
      else if strContains productName "콘센트형" then "콘센트형 책상세트"
      else if strContains productName "멀티세트" then "멀티세트"
      else "기타")
  -- 8. Reading room logic
  else if strContains productName "800x600 독서실" || strContains productName "낮은 칸막이" ||
      strContains productName "스터디룸" then
    some ("독서실",
      if strContains productName "800x600 독서실" then "독서실책상"
      else if strContains productName "낮은 칸막이" then "낮은칸막이"
      else if strContains productName "스터디룸" then "스터디룸"
      else "기타")
  -- 9. Motion desk logic
  else if ["프리미엄", "플러스", "포레그", "스마트", "알파"].any
      (fun keyword => strContains productName keyword) then
    some ("모션데스크",
      if strContains productName "프리미엄" then "프리미엄"
      else if strContains productName "플러스" then "플러스"
      else if strContains productName "테이블 포레그" || strContains productName "데스크 포레그" ||
          strContains productName "포레그" then "포레그"
      else if strContains productName "스마트" then "스마트"
      else if strContains productName "알파" then "알파"
      else "기타")
  -- 10. Drawer logic
  else if strContains productName "3단 서랍" || strContains productName "슬림서랍" ||
      strContains productName "400폭 서랍" then
    some ("서랍",
      if strContains productName "3단 슬림서랍" then "3단슬림서랍"
      else if strContains productName "2단 슬림서랍" then "2단슬림서랍"
      else if strContains productName "400폭 서랍" then "400폭서랍"
      else if strContains productName "3단 서랍" then "600폭서랍"
      else "기타")
  -- 11. H-type logic
  else if strContains productName "h형" || strContains productName "H형" then
    some ("책상", "H형")
  -- 12. Chair set logic
  else if (strContains productName "4인" || strContains productName "6인") &&
      (strContains productName "의자" || strContains productName "벤치") then
    some ("테이블", "의자세트")
  -- 13. Bench logic
  else if strContains productName "벤치" then
    some ("의자", "벤치")
  -- 14. Partition / screen logic
  else if strContains productName "파티션" || strContains productName "스크린" ||
      strContains productName "페트 3면" then
    (if strContains productName "악세서리" then
      some ("악세서리", "기타")
    else
      some ("파티션/스크린",
        if strContains productName "라이트파티션" then "라이트파티션"
        else if strContains productName "페트 3면" then "페트3면"
        else if strContains productName "펠트" then "펠트"
        else if strContains productName "전면" then "목제"
        else if strContains productName "파티션" then "파티션"
        else "기타"))
  -- 15. S01 logic
  else if strContains productName "S01" then
    some ("S01", "S01")
  -- 16. Steel shelf logic
  else if strContains productName "철제선반장" then
    some ("철제선반장", "철제선반장")
  -- 17. Hanger logic
  else if strContains productName "행거" then
    some ("행거", "행거")
  -- 18. Chair logic
  else if strContains productName "의자" then
    some ("의자", "의자")
  -- 19. Monitor stand logic
  else if strContains productName "받침대" then
    some ("모니터받침대", if strContains productName "고속" then "고무충" else "모니터받침대")
  -- 20. Desk logic (extended)
  else if ["컴퓨터 책상", "멀티데스크", "멀티테이블", "베이직", "노트북", "하부가림"].any
      (fun k => strContains productName k) then
    some ("책상",
      if strContains productName "컴퓨터 책상" then "컴퓨터책상"
      else if strContains productName "멀티데스크" then "멀티데스크"
      else if strContains productName "멀티테이블" then "멀티테이블"
      else if strContains productName "베이직" then "베이직"
      else if strContains productName "노트북" then "노트북"
      else if strContains productName "하부가림" then "하부가림"
      else "기타")
  -- 21. Bookshelf logic (generic)
  else if strContains productName "책장" then
    (if strContains productName "액세서리" then
      some ("악세서리", "기타")
    else
      some ("책장",
        if strContains productName "목제깊은" || strContains productName "깊은 목제" then "목제깊은책장"
        else if strContains productName "목제" then "목제"
        else if strContains productName "철제" then "철제"
        else "기타"))
  -- 22. Table logic
  else if strContains productName "테이블" then
    some ("테이블",
      if (strContains productName "4인" || strContains productName "6인") &&
          strContains productName "세트" then "4/6인세트"
      else if strContains productName "1600x800 타원형" then "타원형"
      else if strContains productName "600폭 타원형" then "타원형사이드"
      else if strContains productName "빅테이블" then "빅테이블"
      else if strContains productName "550x550" then "550"
      else if strContains productName "식탁 세트" then "식탁세트"
      else if strContains productName "소파테이블" then "소파테이블"
      else if strContains productName "스탠딩" || strContains productName "스탠딩테이블" then "스탠딩"
      else if strContains productName "원형" || strContains productName "원형테이블" then "원형"
      else if strContains productName "4인" || strContains productName "6인" then "4/6인 테이블"
      else if strContains productName "다목적" then "다목적"
      else "기타")
  -- 23. Fallback: everything else is an accessory
  else
    some ("악세서리", "기타")

/-! The spec describes the categorizer as an ordered list of predicate/result
rules evaluated top-to-bottom, first match wins.  `Rule` and `firstMatch`
formalise that reading; `categorizerRules` lists the 23 rules of the source
in source order. -/

structure Rule where
  pred : String → Bool
  result : String → String × String

def firstMatch : List Rule → String → Option (String × String)
  | [], _ => none
  | r :: rs, n => if r.pred n then some (r.result n) else firstMatch rs n

theorem firstMatch_cons (r : Rule) (rs : List Rule) (n : String) :
    firstMatch (r :: rs) n = if r.pred n then some (r.result n) else firstMatch rs n := rfl

def categorizerRules : List Rule :=
  [⟨fun n => strContains n "가방걸이" || strContains n "수직배선커버",
    fun _ => ("악세서리", "기타")⟩,
   ⟨fun n => strContains n "컨트롤", fun _ => ("모션데스크", "컨트롤")⟩,
   ⟨fun n => strContains n "스탠딩데스크", fun _ => ("책상", "스탠딩데스크")⟩,
   ⟨fun n => strContains n "목제깊은" || strContains n "깊은 목제",
    fun _ => ("책장", "목제깊은책장")⟩,
   ⟨fun n => BOOKSHELF_600_CODES.any (fun code => strContains n code),
    fun n => ("600폭 책장",
      if strContains n "깊은" then "깊은수납형"
      else if strContains n "서랍" then "서랍형"
      else "일반형")⟩,
   ⟨fun n => BOARD_CODES.any (fun code => strContains n code),
    fun n => ("보드",
      if strContains n "화이트" then "화이트보드"
      else if strContains n "목제" then "목제보드"
      else "기타")⟩,
   ⟨fun n => strContains n "책상세트",
    fun n => ("책상세트",
      if strContains n "모션 멀티" then "모션멀티"
      else if strContains n "모션 책상" then "모션책상세트"
      else if strContains n "멀티책상" && !strContains n "모션" then "멀티세트"
      else if strContains n "콘센트형" then "콘센트형 책상세트"
      else if strContains n "멀티세트" then "멀티세트"
      else "기타")⟩,
   ⟨fun n => strContains n "800x600 독서실" || strContains n "낮은 칸막이" || strContains n "스터디룸",
    fun n => ("독서실",
      if strContains n "800x600 독서실" then "독서실책상"
      else if strContains n "낮은 칸막이" then "낮은칸막이"
      else if strContains n "스터디룸" then "스터디룸"
      else "기타")⟩,
   ⟨fun n => ["프리미엄", "플러스", "포레그", "스마트", "알파"].any (fun keyword => strContains n keyword),
    fun n => ("모션데스크",
      if strContains n "프리미엄" then "프리미엄"
      else if strContains n "플러스" then "플러스"
      else if strContains n "테이블 포레그" || strContains n "데스크 포레그" ||
          strContains n "포레그" then "포레그"
      else if strContains n "스마트" then "스마트"
      else if strContains n "알파" then "알파"
      else "기타")⟩,
   ⟨fun n => strContains n "3단 서랍" || strContains n "슬림서랍" || strContains n "400폭 서랍",
    fun n => ("서랍",
      if strContains n "3단 슬림서랍" then "3단슬림서랍"
      else if strContains n "2단 슬림서랍" then "2단슬림서랍"
      else if strContains n "400폭 서랍" then "400폭서랍"
      else if strContains n "3단 서랍" then "600폭서랍"
      else "기타")⟩,
   ⟨fun n => strContains n "h형" || strContains n "H형", fun _ => ("책상", "H형")⟩,
   ⟨fun n => (strContains n "4인" || strContains n "6인") &&
      (strContains n "의자" || strContains n "벤치"),
    fun _ => ("테이블", "의자세트")⟩,
   ⟨fun n => strContains n "벤치", fun _ => ("의자", "벤치")⟩,
   ⟨fun n => strContains n "파티션" || strContains n "스크린" || strContains n "페트 3면",
    fun n =>
      if strContains n "악세서리" then ("악세서리", "기타")
      else ("파티션/스크린",
        if strContains n "라이트파티션" then "라이트파티션"
        else if strContains n "페트 3면" then "페트3면"
        else if strContains n "펠트" then "펠트"
        else if strContains n "전면" then "목제"
        else if strContains n "파티션" then "파티션"
        else "기타")⟩,
   ⟨fun n => strContains n "S01", fun _ => ("S01", "S01")⟩,
   ⟨fun n => strContains n "철제선반장", fun _ => ("철제선반장", "철제선반장")⟩,
   ⟨fun n => strContains n "행거", fun _ => ("행거", "행거")⟩,
   ⟨fun n => strContains n "의자", fun _ => ("의자", "의자")⟩,
   ⟨fun n => strContains n "받침대",
    fun n => ("모니터받침대", if strContains n "고속" then "고무충" else "모니터받침대")⟩,
   ⟨fun n => ["컴퓨터 책상", "멀티데스크", "멀티테이블", "베이직", "노트북", "하부가림"].any
      (fun k => strContains n k),
    fun n => ("책상",
      if strContains n "컴퓨터 책상" then "컴퓨터책상"
      else if strContains n "멀티데스크" then "멀티데스크"
      else if strContains n "멀티테이블" then "멀티테이블"
      else if strContains n "베이직" then "베이직"
      else if strContains n "노트북" then "노트북"
      else if strContains n "하부가림" then "하부가림"
      else "기타")⟩,
   ⟨fun n => strContains n "책장",
    fun n =>
      if strContains n "액세서리" then ("악세서리", "기타")
      else ("책장",
        if strContains n "목제깊은" || strContains n "깊은 목제" then "목제깊은책장"
        else if strContains n "목제" then "목제"
        else if strContains n "철제" then "철제"
        else "기타")⟩,
   ⟨fun n => strContains n "테이블",
    fun n => ("테이블",
      if (strContains n "4인" || strContains n "6인") && strContains n "세트" then "4/6인세트"
      else if strContains n "1600x800 타원형" then "타원형"
      else if strContains n "600폭 타원형" then "타원형사이드"
      else if strContains n "빅테이블" then "빅테이블"
      else if strContains n "550x550" then "550"
      else if strContains n "식탁 세트" then "식탁세트"
      else if strContains n "소파테이블" then "소파테이블"
      else if strContains n "스탠딩" || strContains n "스탠딩테이블" then "스탠딩"
      else if strContains n "원형" || strContains n "원형테이블" then "원형"
      else if strContains n "4인" || strContains n "6인" then "4/6인 테이블"
      else if strContains n "다목적" then "다목적"
      else "기타")⟩,
   ⟨fun _ => true, fun _ => ("악세서리", "기타")⟩]

theorem ite_some_some {α : Type} {c : Prop} [Decidable c] (a b : α) :
    (if c then some a else some b) = some (if c then a else b) := by
  split <;> rfl

theorem classify_eq_firstMatch (n : String) :
    applyCustomCategorization n = firstMatch categorizerRules n := by
  unfold applyCustomCategorization
  simp only [categorizerRules, firstMatch, if_true, ite_some_some]

theorem firstMatch_append_of_pred (pre post : List Rule) (r : Rule) (n : String)
    (hr : r.pred n = true) (hpre : ∀ r' ∈ pre, r'.pred n = false) :
    firstMatch (pre ++ r :: post) n = some (r.result n) := by
  induction pre with
  | nil => simp [firstMatch, hr]
  | cons a as ih =>
    have ha : a.pred n = false := hpre a (List.mem_cons_self a as)
    simp only [List.cons_append, firstMatch, ha, Bool.false_eq_true, if_false]
    exact ih fun r' hmem => hpre r' (List.mem_cons_of_mem a hmem)

/-- C4: the rule-based categorizer evaluates its ordered rule list top-to-bottom
and returns the result of the first matching rule, never consulting later rules
once a rule matches; in particular every product name containing both "가방걸이"
and "테이블" is classified as ("악세서리", "기타"), because the accessory rule
precedes the table rule. -/
theorem categorizer_first_match_wins :
    (∀ n, applyCustomCategorization n = firstMatch categorizerRules n) ∧
    (∀ (pre post extra : List Rule) (r : Rule) (n : String),
      r.pred n = true → (∀ r' ∈ pre, r'.pred n = false) →
      firstMatch (pre ++ r :: post) n = some (r.result n) ∧
      firstMatch (pre ++ r :: extra) n = some (r.result n)) ∧
    (∀ n, strContains n "가방걸이" = true → strContains n "테이블" = true →
      applyCustomCategorization n = some ("악세서리", "기타")) := by
  refine ⟨classify_eq_firstMatch, ?_, ?_⟩
  · intro pre post extra r n hr hpre
    exact ⟨firstMatch_append_of_pred pre post r n hr hpre,
      firstMatch_append_of_pred pre extra r n hr hpre⟩
  · intro n h1 _
    unfold applyCustomCategorization
    simp [h1]

/-- Witness for C4 at the concrete name "가방걸이 테이블". -/
theorem categorizer_first_match_wins_witness :
    strContains "가방걸이 테이블" "가방걸이" = true ∧
    strContains "가방걸이 테이블" "테이블" = true ∧
    applyCustomCategorization "가방걸이 테이블" = some ("악세서리", "기타") :=
  ⟨by decide, by decide,
    categorizer_first_match_wins.2.2 "가방걸이 테이블" (by decide) (by decide)⟩

/-! ## Row normalization pipeline (src/services/excelService.ts parseExcel,
src/App.tsx handleFilesSelected)

`RawItem` is the canonical row delivered by the external row normalizer
(the header-matching heuristics live outside the core).  `normalizeRow`
computes the nets and applies the categorizer, exactly as parseExcel does. -/

structure RawItem where
  productName : String
  quantity : ℚ
  refundQuantity : ℚ
  paymentCount : ℚ
  refundCount : ℚ
  amount : ℚ
  refundAmount : ℚ
  deriving Repr, DecidableEq

def normalizeRow (r : RawItem) : ProductData :=
  let customCat := applyCustomCategorization r.productName
  { productName := r.productName
    quantity := r.quantity
    refundQuantity := r.refundQuantity
    netQuantity := r.quantity - r.refundQuantity
    paymentCount := r.paymentCount
    refundCount := r.refundCount
    netCount := r.paymentCount - r.refundCount
    amount := r.amount
    refundAmount := r.refundAmount
    netAmount := r.amount - r.refundAmount
    majorCategory := customCat.map Prod.fst
    minorCategory := customCat.map Prod.snd
    share := none }

def parseExcelModel (rows : List RawItem) : List ProductData :=
  (rows.map normalizeRow).filter fun item =>
    decide (item.productName ≠ "Unknown Product") &&
      (decide (0 < item.quantity) || decide (0 < item.amount) ||
       decide (0 < item.netQuantity) || decide (0 < item.netCount))

/-- Names the rule engine could not classify (App.tsx collects the
productName of every parsed item whose majorCategory is unset). -/
def productsNeedingAI (parsed : List ProductData) : List String :=
  (parsed.filter fun p => p.majorCategory.isNone).map (·.productName)

/-- `Array.from(new Set(xs))`: deduplication keeping first occurrences in order. -/
def dedupFirstAux (seen : List String) : List String → List String
  | [] => []
  | x :: xs => if x ∈ seen then dedupFirstAux seen xs else x :: dedupFirstAux (x :: seen) xs

def dedupFirst (l : List String) : List String := dedupFirstAux [] l

/-- App.tsx invokes the AI service iff the deduplicated list of unclassified
names across all files is non-empty. -/
def aiInvoked (filesRows : List (List RawItem)) : Bool :=
  let productsNeeding := filesRows.flatMap fun rows => productsNeedingAI (parseExcelModel rows)
  decide (0 < (dedupFirst productsNeeding).length)

theorem firstMatch_isSome (rs : List Rule) (n : String) (h : ∃ r ∈ rs, r.pred n = true) :
    (firstMatch rs n).isSome = true := by
  induction rs with
  | nil => simp at h
  | cons a as ih =>
    by_cases ha : a.pred n = true
    · simp [firstMatch, ha]
    · obtain ⟨r, hr, hpred⟩ := h
      rcases List.mem_cons.mp hr with rfl | hmem
      · exact absurd hpred ha
      · simpa [firstMatch, ha] using ih ⟨r, hmem, hpred⟩

theorem classify_isSome (n : String) : (applyCustomCategorization n).isSome = true := by
  rw [classify_eq_firstMatch]
  refine firstMatch_isSome _ _ ⟨⟨fun _ => true, fun _ => ("악세서리", "기타")⟩, ?_, rfl⟩
  unfold categorizerRules
  repeat first | exact List.Mem.head _ | apply List.Mem.tail

theorem parseExcelModel_major_isSome (rows : List RawItem) :
    ∀ p ∈ parseExcelModel rows, p.majorCategory.isSome = true ∧ p.minorCategory.isSome = true := by
  intro p hp
  have hmem := List.mem_of_mem_filter hp
  obtain ⟨r, _, rfl⟩ := List.mem_map.mp hmem
  constructor
  · simpa [normalizeRow, Option.isSome_map] using classify_isSome r.productName
  · simpa [normalizeRow, Option.isSome_map] using classify_isSome r.productName

theorem productsNeedingAI_parse_nil (rows : List RawItem) :
    productsNeedingAI (parseExcelModel rows) = [] := by
  unfold productsNeedingAI
  have h : List.filter (fun p => p.majorCategory.isNone) (parseExcelModel rows) = [] := by
    rw [List.filter_eq_nil_iff]
    intro p hp
    have := (parseExcelModel_major_isSome rows p hp).1
    simp [Option.isNone, Option.isSome] at this ⊢
    cases hmaj : p.majorCategory with
    | none => rw [hmaj] at this; simp at this
    | some v => rfl
  rw [h]
  rfl

theorem aiInvoked_false (filesRows : List (List RawItem)) : aiInvoked filesRows = false := by
  have h : filesRows.flatMap (fun rows => productsNeedingAI (parseExcelModel rows)) = [] := by
    induction filesRows with
    | nil => rfl
    | cons a as ih => simp [List.flatMap_cons, productsNeedingAI_parse_nil, ih]
  simp [aiInvoked, h, dedupFirst, dedupFirstAux]

/-- C10: the rule-based categorizer is total (never returns null) because of its
final catch-all rule, every parsed line item leaves parsing with both category
fields set, the set of names needing the AI fallback is always empty, and the
external classification service is never invoked by the pipeline. -/
theorem categorizer_total_service_never_invoked :
    (∀ n, (applyCustomCategorization n).isSome = true) ∧
    (∀ n, (∀ r ∈ categorizerRules.dropLast, r.pred n = false) →
      applyCustomCategorization n = some ("악세서리", "기타")) ∧
    (∀ rows, ∀ p ∈ parseExcelModel rows,
      p.majorCategory.isSome = true ∧ p.minorCategory.isSome = true) ∧
    (∀ rows, productsNeedingAI (parseExcelModel rows) = []) ∧
    (∀ filesRows, aiInvoked filesRows = false) := by
  refine ⟨classify_isSome, ?_, parseExcelModel_major_isSome, productsNeedingAI_parse_nil,
    aiInvoked_false⟩
  intro n h
  rw [classify_eq_firstMatch]
  have hsplit : categorizerRules.dropLast ++
      [(⟨fun _ => true, fun _ => ("악세서리", "기타")⟩ : Rule)] = categorizerRules := by rfl
  rw [← hsplit]
  exact firstMatch_append_of_pred _ [] _ n rfl h

/-- Witness for C10: the default rule fires on a name matching no earlier rule,
and the service is not invoked on a concrete parsed file. -/
theorem categorizer_total_service_never_invoked_witness :
    (applyCustomCategorization "xyz").isSome = true ∧
    applyCustomCategorization "xyz" = some ("악세서리", "기타") ∧
    aiInvoked [[⟨"의자", 1, 0, 1, 0, 10, 0⟩]] = false :=
  ⟨categorizer_total_service_never_invoked.1 "xyz",
   categorizer_total_service_never_invoked.2.1 "xyz" (by decide),
   categorizer_total_service_never_invoked.2.2.2.2 [[⟨"의자", 1, 0, 1, 0, 10, 0⟩]]⟩

/-! ## Growth computation (src/components/ComparisonDashboard.tsx GrowthCell,
src/services/exportService.ts exportComparisonData)

Per-file statistics tuples are `(netQuantity, netAmount, netCount)`, the
source's `[qty, amt, count]` arrays. -/

abbrev Triple := ℚ × ℚ × ℚ

def zeroTriple : Triple := (0, 0, 0)

def tripleQty (t : Triple) : ℚ := t.1

def tripleAmt (t : Triple) : ℚ := t.2.1

def tripleCnt (t : Triple) : ℚ := t.2.2

inductive GrowthType where
  | amount
  | quantity
  deriving Repr, DecidableEq

def statSel : GrowthType → Triple → ℚ
  | .amount, t => tripleAmt t
  | .quantity, t => tripleQty t

/-- The zero-handling percentage rule of GrowthCell: when prev is 0, growth is
100 if curr > 0 and 0 otherwise; else (curr - prev)/prev * 100. -/
def growthPercent (prev curr : ℚ) : ℚ :=
  if prev = 0 then (if 0 < curr then 100 else 0) else (curr - prev) / prev * 100

/-- GrowthCell renders nothing when fewer than two periods are present;
otherwise it shows the signed delta and the growth percentage. -/
def growthCell (stats : List Triple) (ty : GrowthType) : Option (ℚ × ℚ) :=
  if stats.length < 2 then none
  else
    let prev := statSel ty (stats.getD 0 zeroTriple)
    let curr := statSel ty (stats.getD 1 zeroTriple)
    some (curr - prev, growthPercent prev curr)

/-- exportComparisonData's growth columns: same delta, percentage as a
fraction (the spreadsheet cell is formatted as a percentage). -/
def exportGrowth (prev curr : ℚ) : ℚ × ℚ :=
  (curr - prev, if prev = 0 then (if 0 < curr then 1 else 0) else (curr - prev) / prev)

/-- C2: at every tree node with two compared periods, the displayed delta is
curr - prev and the growth percent follows the asymmetric zero rule: 100 when
prev = 0 < curr, 0 when prev = 0 and curr ≤ 0, (curr-prev)/prev*100 otherwise;
in particular (0,5) ↦ (delta 5, 100%), (5,0) ↦ (delta -5, -100%),
(0,0) ↦ (delta 0, 0%).  The export growth columns follow the same rule scaled
to a fraction. -/
theorem growth_cell_zero_handling :
    (∀ (stats : List Triple) (ty : GrowthType), 2 ≤ stats.length →
      growthCell stats ty =
        some (statSel ty (stats.getD 1 zeroTriple) - statSel ty (stats.getD 0 zeroTriple),
          growthPercent (statSel ty (stats.getD 0 zeroTriple))
            (statSel ty (stats.getD 1 zeroTriple)))) ∧
    (∀ prev curr : ℚ, prev = 0 → 0 < curr → growthPercent prev curr = 100) ∧
    (∀ prev curr : ℚ, prev = 0 → curr ≤ 0 → growthPercent prev curr = 0) ∧
    (∀ prev curr : ℚ, prev ≠ 0 → growthPercent prev curr = (curr - prev) / prev * 100) ∧
    growthCell [zeroTriple, (5, 5, 5)] GrowthType.amount = some (5, 100) ∧
    growthCell [(5, 5, 5), zeroTriple] GrowthType.amount = some (-5, -100) ∧
    growthCell [zeroTriple, zeroTriple] GrowthType.quantity = some (0, 0) ∧
    (∀ prev curr : ℚ, exportGrowth prev curr = (curr - prev, growthPercent prev curr / 100)) := by
  have heval : ∀ a b : Triple, ∀ ty, growthCell [a, b] ty =
      some (statSel ty b - statSel ty a, growthPercent (statSel ty a) (statSel ty b)) := by
    intro a b ty
    rw [growthCell, if_neg (by simp)]
    rfl
  refine ⟨?_, ?_, ?_, ?_,
    by rw [heval]; norm_num [statSel, tripleAmt, zeroTriple, growthPercent],
    by rw [heval]; norm_num [statSel, tripleAmt, zeroTriple, growthPercent],
    by rw [heval]; norm_num [statSel, tripleQty, zeroTriple, growthPercent], ?_⟩
  · intro stats ty h
    rw [growthCell, if_neg (by omega)]
  · intro prev curr h0 hpos
    simp [growthPercent, h0, hpos]
  · intro prev curr h0 hnonpos
    simp [growthPercent, h0, not_lt.mpr hnonpos]
  · intro prev curr h0
    simp [growthPercent, h0]
  · intro prev curr
    unfold exportGrowth growthPercent
    by_cases h0 : prev = 0
    · by_cases hpos : 0 < curr <;> simp [h0, hpos]
    · rw [if_neg h0, if_neg h0]
      field_simp
      ring

/-- Witness for C2 at concrete two-period stats. -/
theorem growth_cell_zero_handling_witness :
    growthCell [(1, 2, 3), (4, 6, 8)] GrowthType.quantity =
      some (statSel GrowthType.quantity (((1, 2, 3) : Triple) :: [((4, 6, 8) : Triple)]).tail.headI - 1,
        growthPercent 1 4) ∧
    growthPercent 0 7 = 100 ∧ growthPercent 0 (-7) = 0 ∧ growthPercent 2 7 = (7 - 2) / 2 * 100 :=
  ⟨by
    have h := growth_cell_zero_handling.1 [(1, 2, 3), (4, 6, 8)] GrowthType.quantity (by decide)
    simpa using h,
   growth_cell_zero_handling.2.1 0 7 rfl (by norm_num),
   growth_cell_zero_handling.2.2.1 0 (-7) rfl (by norm_num),
   growth_cell_zero_handling.2.2.2.1 2 7 (by norm_num)⟩

/-! ## Top-line two-period comparison
(src/components/ComparisonDashboard.tsx twoFileStats) -/

structure TwoFileStats where
  amountDelta : ℚ
  amountGrowth : ℚ
  qtyDelta : ℚ
  qtyGrowth : ℚ
  countDelta : ℚ
  countGrowth : ℚ
  deriving Repr, DecidableEq

def twoFileStats (files : List FileData) : Option TwoFileStats :=
  match files with
  | [file1, file2] =>
    some
      { amountDelta := file2.totalNetAmount - file1.totalNetAmount
        amountGrowth :=
          if file1.totalNetAmount ≠ 0 then
            (file2.totalNetAmount - file1.totalNetAmount) / file1.totalNetAmount * 100
          else 0
        qtyDelta := file2.totalNetQuantity - file1.totalNetQuantity
        qtyGrowth :=
          if file1.totalNetQuantity ≠ 0 then
            (file2.totalNetQuantity - file1.totalNetQuantity) / file1.totalNetQuantity * 100
          else 0
        countDelta := file2.totalNetCount - file1.totalNetCount
        countGrowth :=
          if file1.totalNetCount ≠ 0 then
            (file2.totalNetCount - file1.totalNetCount) / file1.totalNetCount * 100
          else 0 }
  | _ => none

/-- C3 counterexample: with first-period totals all 0 and second-period totals
positive, the top-line growth percents are 0, not 100 — the asymmetric
zero-handling rule is not applied at the top line. -/
theorem top_line_growth_counterexample :
    (twoFileStats [⟨"A", [], 0, 0, 0, 0⟩, ⟨"B", [], 0, 5, 5, 5⟩]).map (·.amountGrowth) = some 0 ∧
    (twoFileStats [⟨"A", [], 0, 0, 0, 0⟩, ⟨"B", [], 0, 5, 5, 5⟩]).map (·.qtyGrowth) = some 0 ∧
    (twoFileStats [⟨"A", [], 0, 0, 0, 0⟩, ⟨"B", [], 0, 5, 5, 5⟩]).map (·.countGrowth) = some 0 ∧
    (twoFileStats [⟨"A", [], 0, 0, 0, 0⟩, ⟨"B", [], 0, 5, 5, 5⟩]).map (·.amountGrowth) ≠
      some 100 := by
  refine ⟨by simp [twoFileStats], by simp [twoFileStats], by simp [twoFileStats], ?_⟩
  simp [twoFileStats]

/-- C3 amended: the top-line two-period comparison does not use the asymmetric
rule; for each of net amount, net quantity and net count, the delta is
curr - prev and the growth percent is delta/prev*100 when the first period's
total is nonzero, and 0 whenever the first period's total is 0 — even when the
second period's total is positive. -/
theorem top_line_growth_amended (f1 f2 : FileData) (s : TwoFileStats)
    (h : twoFileStats [f1, f2] = some s) :
    s.amountDelta = f2.totalNetAmount - f1.totalNetAmount ∧
    s.qtyDelta = f2.totalNetQuantity - f1.totalNetQuantity ∧
    s.countDelta = f2.totalNetCount - f1.totalNetCount ∧
    (f1.totalNetAmount = 0 → s.amountGrowth = 0) ∧
    (f1.totalNetAmount ≠ 0 → s.amountGrowth = s.amountDelta / f1.totalNetAmount * 100) ∧
    (f1.totalNetQuantity = 0 → s.qtyGrowth = 0) ∧
    (f1.totalNetQuantity ≠ 0 → s.qtyGrowth = s.qtyDelta / f1.totalNetQuantity * 100) ∧
    (f1.totalNetCount = 0 → s.countGrowth = 0) ∧
    (f1.totalNetCount ≠ 0 → s.countGrowth = s.countDelta / f1.totalNetCount * 100) := by
  have hs : s = { amountDelta := f2.totalNetAmount - f1.totalNetAmount
                  amountGrowth :=
                    if f1.totalNetAmount ≠ 0 then
                      (f2.totalNetAmount - f1.totalNetAmount) / f1.totalNetAmount * 100
                    else 0
                  qtyDelta := f2.totalNetQuantity - f1.totalNetQuantity
                  qtyGrowth :=
                    if f1.totalNetQuantity ≠ 0 then
                      (f2.totalNetQuantity - f1.totalNetQuantity) / f1.totalNetQuantity * 100
                    else 0
                  countDelta := f2.totalNetCount - f1.totalNetCount
                  countGrowth :=
                    if f1.totalNetCount ≠ 0 then
                      (f2.totalNetCount - f1.totalNetCount) / f1.totalNetCount * 100
                    else 0 } := by
    have := h.symm
    simpa [twoFileStats] using this
  subst hs
  refine ⟨rfl, rfl, rfl, ?_, ?_, ?_, ?_, ?_, ?_⟩ <;> intro hz <;> simp [hz]

/-- Witness for C3's amended statement at concrete files. -/
theorem top_line_growth_amended_witness :
    (({ amountDelta := 7, amountGrowth := 0, qtyDelta := 6, qtyGrowth := 200,
        countDelta := 4, countGrowth := 200 } : TwoFileStats).amountGrowth = 0) ∧
    (({ amountDelta := 7, amountGrowth := 0, qtyDelta := 6, qtyGrowth := 200,
        countDelta := 4, countGrowth := 200 } : TwoFileStats).amountDelta =
      (7 : ℚ) - 0) := by
  have h := top_line_growth_amended ⟨"A", [], 0, 0, 3, 2⟩ ⟨"B", [], 0, 7, 9, 6⟩
    { amountDelta := 7, amountGrowth := 0, qtyDelta := 6, qtyGrowth := 200,
      countDelta := 4, countGrowth := 200 }
    (by simp [twoFileStats, TwoFileStats.mk.injEq]; norm_num)
  exact ⟨h.2.2.2.1 rfl, h.1⟩

/-! ## Fallback classifier adapter (src/services/geminiService.ts)

The external call is modelled by `ServiceOutcome`: a missing credential, a
thrown failure (network error or unparseable response body — `JSON.parse`
throwing is caught by the adapter), or a response whose body is either empty
(`response.text` falsy) or a parsed list of mappings. -/

inductive ServiceOutcome where
  | missingKey
  | failure
  | response (text : Option (List CategoryMapping))
  deriving Repr, DecidableEq

def categorizeProductsWithAI (productNames : List String) :
    ServiceOutcome → List CategoryMapping
  | .missingKey => productNames.map fun name => ⟨name, "미분류", "기타"⟩
  | .failure => (dedupFirst productNames).map fun name => ⟨name, "미분류", "기타"⟩
  | .response none => []
  | .response (some mappings) => mappings

/-- The deduplicated, capped batch actually sent to the external service. -/
def requestChunk (productNames : List String) : List String :=
  (dedupFirst productNames).take 300

/-- App.tsx builds a Map from the returned mappings (later entries overwrite
earlier ones) and looks names up in it. -/
def mappingLookup (ms : List CategoryMapping) (nm : String) : Option (String × String) :=
  ms.foldl (fun acc m => if m.productName = nm then some (m.major, m.minor) else acc) none

/-- App.tsx backfills each still-unclassified item from the mapping, falling
back to the default pair when the name is absent. -/
def applyAICategory (ms : List CategoryMapping) (p : ProductData) : ProductData :=
  if p.majorCategory.isSome then p
  else
    let mapping := (mappingLookup ms p.productName).getD ("미분류", "기타")
    { p with majorCategory := some mapping.1, minorCategory := some mapping.2 }

theorem dedupFirstAux_of_nodup (l : List String) :
    ∀ seen, l.Nodup → (∀ x ∈ l, x ∉ seen) → dedupFirstAux seen l = l := by
  induction l with
  | nil => intro seen _ _; rfl
  | cons a as ih =>
    intro seen hnd hdisj
    have ha : a ∉ seen := hdisj a (List.mem_cons_self a as)
    rw [dedupFirstAux, if_neg ha]
    congr 1
    refine ih (a :: seen) (List.Nodup.of_cons hnd) ?_
    intro x hx
    simp only [List.mem_cons, not_or]
    exact ⟨fun hxa => (List.nodup_cons.mp hnd).1 (hxa ▸ hx), hdisj x (List.mem_cons_of_mem a hx)⟩

theorem dedupFirst_of_nodup (l : List String) (h : l.Nodup) : dedupFirst l = l :=
  dedupFirstAux_of_nodup l [] h (by simp)

theorem mappingLookup_foldl_none (nm : String) (ms : List CategoryMapping) :
    ∀ acc, (∀ m ∈ ms, m.productName ≠ nm) →
      ms.foldl (fun acc m => if m.productName = nm then some (m.major, m.minor) else acc) acc =
        acc := by
  induction ms with
  | nil => intro acc _; rfl
  | cons m rest ih =>
    intro acc h
    rw [List.foldl_cons, if_neg (h m (List.mem_cons_self m rest))]
    exact ih acc fun m' hm' => h m' (List.mem_cons_of_mem m hm')

theorem mappingLookup_none (ms : List CategoryMapping) (nm : String)
    (h : ∀ m ∈ ms, m.productName ≠ nm) : mappingLookup ms nm = none :=
  mappingLookup_foldl_none nm ms none h

/-- C8: the fallback classifier deduplicates and truncates to 300 names; with
301 distinct unclassified names the request holds exactly the first 300 of
them, the 301st is not in the request, and — provided the service responds
only about requested names — the 301st item is backfilled with the default
pair ("미분류", "기타"). -/
theorem fallback_cap_301 (names : List String) (h1 : names.Nodup)
    (h2 : names.length = 301) :
    requestChunk names = names.take 300 ∧
    (requestChunk names).length = 300 ∧
    names.get ⟨300, by omega⟩ ∉ requestChunk names ∧
    (∀ ms : List CategoryMapping, (∀ m ∈ ms, m.productName ∈ requestChunk names) →
      ∀ p : ProductData, p.productName = names.get ⟨300, by omega⟩ →
        p.majorCategory = none →
        (applyAICategory ms p).majorCategory = some "미분류" ∧
        (applyAICategory ms p).minorCategory = some "기타") := by
  have hchunk : requestChunk names = names.take 300 := by
    rw [requestChunk, dedupFirst_of_nodup names h1]
  have hlen : (requestChunk names).length = 300 := by
    rw [hchunk, List.length_take]
    omega
  have hmem : names.get ⟨300, by omega⟩ ∉ requestChunk names := by
    rw [hchunk]
    have hsplit := List.take_append_drop 300 names
    have hnd : (names.take 300 ++ names.drop 300).Nodup := by rw [hsplit]; exact h1
    have hdisj := (List.nodup_append.mp hnd).2.2
    have hdrop : names.get ⟨300, by omega⟩ ∈ names.drop 300 := by
      rw [List.drop_eq_getElem_cons (by omega : 300 < names.length)]
      exact List.mem_cons_self _ _
    exact fun hin => hdisj hin hdrop
  refine ⟨hchunk, hlen, hmem, ?_⟩
  intro ms hms p hp hmaj
  have hnone : mappingLookup ms p.productName = none := by
    refine mappingLookup_none ms p.productName fun m hm => ?_
    intro hcontra
    exact hmem (hp ▸ hcontra ▸ hms m hm)
  rw [applyAICategory, if_neg (by simp [hmaj]), hnone]
  exact ⟨rfl, rfl⟩

def capNames : List String := (List.range 301).map fun i => String.mk (List.replicate i 'a')

/-- Witness for C8: 301 concrete pairwise-distinct names. -/
theorem fallback_cap_301_witness :
    requestChunk capNames = capNames.take 300 ∧
    (requestChunk capNames).length = 300 ∧
    capNames.get ⟨300, by simp [capNames]⟩ ∉ requestChunk capNames := by
  have hinj : Function.Injective fun i : ℕ => String.mk (List.replicate i 'a') := by
    intro a b hab
    have hlen := congrArg String.length hab
    simpa [String.length_mk] using hlen
  have h1 : capNames.Nodup := List.Nodup.map hinj (List.nodup_range 301)
  have h2 : capNames.length = 301 := by simp [capNames]
  have h := fallback_cap_301 capNames h1 h2
  exact ⟨h.1, h.2.1, h.2.2.1⟩

theorem mappingLookup_const_default (nm : String) (l : List String) :
    ∀ acc, List.foldl
      (fun acc m => if m.productName = nm then some (m.major, m.minor) else acc) acc
      (l.map fun name => ({ productName := name, major := "미분류", minor := "기타" } :
        CategoryMapping)) =
      if nm ∈ l then some ("미분류", "기타") else acc := by
  induction l with
  | nil => intro acc; simp
  | cons a as ih =>
    intro acc
    rw [List.map_cons, List.foldl_cons, ih]
    by_cases ha : a = nm
    · subst ha
      by_cases hmem : a ∈ as <;> simp [hmem]
    · have : ¬nm = a := fun h => ha h.symm
      by_cases hmem : nm ∈ as <;> simp [hmem, this, ha]

theorem dedupFirstAux_mem (x : String) (l : List String) :
    ∀ seen, x ∈ l → x ∉ seen → x ∈ dedupFirstAux seen l := by
  induction l with
  | nil => intro seen hx _; simp at hx
  | cons a as ih =>
    intro seen hx hseen
    rw [dedupFirstAux]
    by_cases ha : a ∈ seen
    · rw [if_pos ha]
      rcases List.mem_cons.mp hx with rfl | hmem
      · exact absurd ha hseen
      · exact ih seen hmem hseen
    · rw [if_neg ha]
      by_cases hxa : x = a
      · exact hxa ▸ List.mem_cons_self a _
      · rcases List.mem_cons.mp hx with rfl | hmem
        · exact absurd rfl hxa
        · refine List.mem_cons_of_mem a (ih (a :: seen) hmem ?_)
          simp only [List.mem_cons, not_or]
          exact ⟨hxa, hseen⟩

theorem dedupFirst_mem (x : String) (l : List String) (h : x ∈ l) : x ∈ dedupFirst l :=
  dedupFirstAux_mem x l [] h (by simp)

/-- C9 counterexample: when the service responds with an empty body, the
adapter returns the empty mapping — it does not assign the default pair to the
input name. -/
theorem ai_fallback_empty_response_counterexample :
    categorizeProductsWithAI ["의자A"] (ServiceOutcome.response none) = [] ∧
    mappingLookup (categorizeProductsWithAI ["의자A"] (ServiceOutcome.response none)) "의자A" =
      none :=
  ⟨rfl, rfl⟩

/-- C9 amended: the adapter never propagates a failure; on a missing
credential it returns the default pair for every input name, on a thrown
failure (network error or unparseable response body) it returns the default
pair for every (deduplicated) input name, but on an empty response body it
returns the empty mapping, leaving the caller's lookup to backfill the
default. -/
theorem ai_fallback_absorbs_failures (names : List String) (o : ServiceOutcome) :
    (o = ServiceOutcome.missingKey →
      categorizeProductsWithAI names o =
        (names.map fun name => ⟨name, "미분류", "기타"⟩) ∧
      ∀ nm ∈ names,
        mappingLookup (categorizeProductsWithAI names o) nm = some ("미분류", "기타")) ∧
    (o = ServiceOutcome.failure →
      categorizeProductsWithAI names o =
        ((dedupFirst names).map fun name => ⟨name, "미분류", "기타"⟩) ∧
      ∀ nm ∈ names,
        mappingLookup (categorizeProductsWithAI names o) nm = some ("미분류", "기타")) ∧
    (o = ServiceOutcome.response none → categorizeProductsWithAI names o = []) := by
  refine ⟨?_, ?_, ?_⟩
  · rintro rfl
    refine ⟨rfl, fun nm hnm => ?_⟩
    rw [categorizeProductsWithAI, mappingLookup, mappingLookup_const_default, if_pos hnm]
  · rintro rfl
    refine ⟨rfl, fun nm hnm => ?_⟩
    rw [categorizeProductsWithAI, mappingLookup, mappingLookup_const_default,
      if_pos (dedupFirst_mem nm names hnm)]
  · rintro rfl
    rfl

/-- Witness for C9 at a concrete failing call. -/
theorem ai_fallback_absorbs_failures_witness :
    categorizeProductsWithAI ["책상X"] ServiceOutcome.missingKey =
      [⟨"책상X", "미분류", "기타"⟩] ∧
    mappingLookup (categorizeProductsWithAI ["책상X"] ServiceOutcome.missingKey) "책상X" =
      some ("미분류", "기타") := by
  have h := (ai_fallback_absorbs_failures ["책상X"] ServiceOutcome.missingKey).1 rfl
  exact ⟨h.1, h.2 "책상X" (List.mem_cons_self _ _)⟩

/-! ## Single-period dashboard aggregation (src/components/Dashboard.tsx)

The nested mutable object `structure` (major → minor → products) is modelled
as nested association lists in insertion order. -/

def strToLower (s : String) : String := String.mk (s.data.map Char.toLower)

structure DMinorAgg where
  amount : ℚ
  quantity : ℚ
  count : ℚ
  products : List ProductData
  deriving Repr, DecidableEq

structure DMajorAgg where
  amount : ℚ
  quantity : ℚ
  count : ℚ
  minors : List (String × DMinorAgg)
  deriving Repr, DecidableEq

/-- Insert one item into a minor-level association list: create the entry with
zero totals if absent, then accumulate the nets and push the item. -/
def dInsertMinor : List (String × DMinorAgg) → String → ProductData →
    List (String × DMinorAgg)
  | [], minorKey, item =>
    [(minorKey, ⟨0 + item.netAmount, 0 + item.netQuantity, 0 + item.netCount, [item]⟩)]
  | (k, v) :: rest, minorKey, item =>
    if k = minorKey then
      (k, ⟨v.amount + item.netAmount, v.quantity + item.netQuantity,
        v.count + item.netCount, v.products ++ [item]⟩) :: rest
    else (k, v) :: dInsertMinor rest minorKey item

/-- Insert one item into the major-level association list, accumulating the
major nets and descending into the minors. -/
def dInsertMajor : List (String × DMajorAgg) → String → String → ProductData →
    List (String × DMajorAgg)
  | [], majorKey, minorKey, item =>
    [(majorKey, ⟨0 + item.netAmount, 0 + item.netQuantity, 0 + item.netCount,
      dInsertMinor [] minorKey item⟩)]
  | (k, v) :: rest, majorKey, minorKey, item =>
    if k = majorKey then
      (k, ⟨v.amount + item.netAmount, v.quantity + item.netQuantity,
        v.count + item.netCount, dInsertMinor v.minors minorKey item⟩) :: rest
    else (k, v) :: dInsertMajor rest majorKey minorKey item

def dAggregate (data : List ProductData) : List (String × DMajorAgg) :=
  data.foldl
    (fun s item =>
      dInsertMajor s (item.majorCategory.getD "미분류") (item.minorCategory.getD "기타") item)
    []

inductive SortDirection where
  | asc
  | desc
  deriving Repr, DecidableEq

inductive DSortKey where
  | amount
  | quantity
  | count
  | productName
  deriving Repr, DecidableEq

def dCatVal (key : DSortKey) (amount quantity count : ℚ) : ℚ :=
  match key with
  | .amount => amount
  | .quantity => quantity
  | .count => count
  | .productName => 0

/-- The Dashboard comparator: name sort delegates to the locale comparison
`koCmp` (an external collaborator), numeric sort compares the selected metric;
`a` precedes `b` when the JS comparator is ≤ 0. -/
def dCatLe (koCmp : String → String → ℤ) (key : DSortKey) (dir : SortDirection)
    (aN : String) (aA aQ aC : ℚ) (bN : String) (bA bQ bC : ℚ) : Bool :=
  match key with
  | .productName =>
    (match dir with
     | .asc => decide (koCmp aN bN ≤ 0)
     | .desc => decide (koCmp bN aN ≤ 0))
  | _ =>
    (match dir with
     | .asc => decide (dCatVal key aA aQ aC - dCatVal key bA bQ bC ≤ 0)
     | .desc => decide (dCatVal key bA bQ bC - dCatVal key aA aQ aC ≤ 0))

structure DMinorOut where
  name : String
  amount : ℚ
  quantity : ℚ
  count : ℚ
  share : ℚ
  products : List ProductData
  deriving Repr, DecidableEq

structure DMajorOut where
  name : String
  amount : ℚ
  quantity : ℚ
  count : ℚ
  share : ℚ
  minors : List DMinorOut
  deriving Repr, DecidableEq

def dMajorLe (koCmp : String → String → ℤ) (key : DSortKey) (dir : SortDirection)
    (a b : DMajorOut) : Bool :=
  dCatLe koCmp key dir a.name a.amount a.quantity a.count b.name b.amount b.quantity b.count

def dMinorLe (koCmp : String → String → ℤ) (key : DSortKey) (dir : SortDirection)
    (a b : DMinorOut) : Bool :=
  dCatLe koCmp key dir a.name a.amount a.quantity a.count b.name b.amount b.quantity b.count

def dProdLe (koCmp : String → String → ℤ) (key : DSortKey) (dir : SortDirection)
    (a b : ProductData) : Bool :=
  dCatLe koCmp key dir a.productName a.netAmount a.netQuantity a.netCount
    b.productName b.netAmount b.netQuantity b.netCount

/-- Dashboard.tsx hierarchicalData: aggregate, filter majors by the search
term, compute the quantity-based shares at every level (guarded by `> 0`),
and sort every sibling list. -/
def dMinorOutOf (koCmp : String → String → ℤ) (key : DSortKey) (dir : SortDirection)
    (majorQuantity : ℚ) (mkv : String × DMinorAgg) : DMinorOut :=
  { name := mkv.1
    amount := mkv.2.amount
    quantity := mkv.2.quantity
    count := mkv.2.count
    share := if 0 < majorQuantity then mkv.2.quantity / majorQuantity * 100 else 0
    products :=
      (mkv.2.products.map fun p =>
        { p with
          share :=
            some (if 0 < mkv.2.quantity then p.netQuantity / mkv.2.quantity * 100
              else 0) }).mergeSort (dProdLe koCmp key dir) }

def dMajorOutOf (koCmp : String → String → ℤ) (key : DSortKey) (dir : SortDirection)
    (totalNetQuantity : ℚ) (kv : String × DMajorAgg) : DMajorOut :=
  { name := kv.1
    amount := kv.2.amount
    quantity := kv.2.quantity
    count := kv.2.count
    share := if 0 < totalNetQuantity then kv.2.quantity / totalNetQuantity * 100 else 0
    minors :=
      (kv.2.minors.map (dMinorOutOf koCmp key dir kv.2.quantity)).mergeSort
        (dMinorLe koCmp key dir) }

def dashboardHierarchicalData (fd : FileData) (koCmp : String → String → ℤ)
    (key : DSortKey) (dir : SortDirection) (searchTerm : String) : List DMajorOut :=
  (((dAggregate fd.data).filter fun kv =>
      strContains (strToLower kv.1) (strToLower searchTerm)).map
    (dMajorOutOf koCmp key dir fd.totalNetQuantity)).mergeSort
    (dMajorLe koCmp key dir)

/-! ## Export shares (src/services/exportService.ts exportProcessedData) -/

/-- The accumulated net quantity per major (the `majorQtyMap` fold). -/
def majorQtyOf (data : List ProductData) (major : String) : ℚ :=
  data.foldl
    (fun acc item =>
      if item.majorCategory.getD "미분류" = major then acc + item.netQuantity else acc)
    0

/-- The accumulated net quantity per (major, minor) pair (the `minorQtyMap`
fold keyed by "major|minor"). -/
def minorQtyOf (data : List ProductData) (major minor : String) : ℚ :=
  data.foldl
    (fun acc item =>
      if item.majorCategory.getD "미분류" = major ∧ item.minorCategory.getD "기타" = minor then
        acc + item.netQuantity
      else acc)
    0

def exportMajorShare (fd : FileData) (major : String) : ℚ :=
  if 0 < fd.totalNetQuantity then majorQtyOf fd.data major / fd.totalNetQuantity else 0

def exportMinorShare (fd : FileData) (major minor : String) : ℚ :=
  if 0 < majorQtyOf fd.data major then
    minorQtyOf fd.data major minor / majorQtyOf fd.data major
  else 0

def exportProductShare (fd : FileData) (major minor : String) (qty : ℚ) : ℚ :=
  if 0 < minorQtyOf fd.data major minor then qty / minorQtyOf fd.data major minor else 0

/-! ## Category breakdown with JavaScript float semantics
(src/components/Dashboard.tsx categoryStats)

The share there divides by `totalNetAmount` without any guard, so JavaScript
division semantics (Infinity/NaN on a zero denominator) must be modelled. -/

inductive JSNum where
  | num (q : ℚ)
  | posInf
  | negInf
  | nan
  deriving Repr, DecidableEq

def jsDiv (a b : ℚ) : JSNum :=
  if b = 0 then (if 0 < a then .posInf else if a < 0 then .negInf else .nan)
  else .num (a / b)

def jsMulConst (x : JSNum) (k : ℚ) : JSNum :=
  match x with
  | .num q => .num (q * k)
  | .posInf => if 0 < k then .posInf else if k < 0 then .negInf else .nan
  | .negInf => if 0 < k then .negInf else if k < 0 then .posInf else .nan
  | .nan => .nan

structure CatStat where
  name : String
  amount : ℚ
  quantity : ℚ
  count : ℚ
  share : JSNum
  deriving Repr, DecidableEq

def catStatsInsert : List (String × (ℚ × ℚ × ℚ)) → String → ProductData →
    List (String × (ℚ × ℚ × ℚ))
  | [], key, item =>
    [(key, (0 + item.netAmount, 0 + item.netQuantity, 0 + item.netCount))]
  | (k, v) :: rest, key, item =>
    if k = key then
      (k, (v.1 + item.netAmount, v.2.1 + item.netQuantity, v.2.2 + item.netCount)) :: rest
    else (k, v) :: catStatsInsert rest key item

def categoryStatsAgg (data : List ProductData) : List (String × (ℚ × ℚ × ℚ)) :=
  data.foldl (fun s item => catStatsInsert s (item.majorCategory.getD "미분류") item) []

/-- Dashboard.tsx categoryStats: aggregate by major, compute the amount-based
share with an unguarded division, sort by amount descending. -/
def categoryStats (fd : FileData) : List CatStat :=
  ((categoryStatsAgg fd.data).map fun kv =>
    { name := kv.1, amount := kv.2.1, quantity := kv.2.2.1, count := kv.2.2.2,
      share := jsMulConst (jsDiv kv.2.1 fd.totalNetAmount) 100 }).mergeSort
    (fun a b => decide (b.amount ≤ a.amount))

/-- App.tsx:38 — the per-item share of period net quantity, guarded by `> 0`. -/
def appItemShare (totalNetQuantity netQuantity : ℚ) : ℚ :=
  if 0 < totalNetQuantity then netQuantity / totalNetQuantity * 100 else 0

/-! ## Lookup characterization of the dashboard aggregation -/

def assocFind {α : Type} (S : List (String × α)) (k : String) : Option α :=
  (S.find? fun kv => decide (kv.1 = k)).map Prod.snd

def majorLookupQty (S : List (String × DMajorAgg)) (k : String) : ℚ :=
  ((assocFind S k).map DMajorAgg.quantity).getD 0

def minorLookupQty (minors : List (String × DMinorAgg)) (mk : String) : ℚ :=
  ((assocFind minors mk).map DMinorAgg.quantity).getD 0

def majorMinorLookupQty (S : List (String × DMajorAgg)) (k mk : String) : ℚ :=
  ((assocFind S k).map fun v => minorLookupQty v.minors mk).getD 0

theorem minorLookupQty_dInsertMinor (minors : List (String × DMinorAgg)) (K : String)
    (item : ProductData) (mk : String) :
    minorLookupQty (dInsertMinor minors K item) mk =
      if mk = K then minorLookupQty minors K + item.netQuantity
      else minorLookupQty minors mk := by
  induction minors with
  | nil =>
    by_cases h : mk = K
    · subst h
      simp [dInsertMinor, minorLookupQty, assocFind, List.find?]
    · have h' : ¬K = mk := fun hc => h hc.symm
      simp [dInsertMinor, minorLookupQty, assocFind, List.find?, h, h']
  | cons kv rest ih =>
    obtain ⟨k, v⟩ := kv
    rw [dInsertMinor]
    by_cases hk : k = K
    · subst hk
      by_cases h : mk = k
      · subst h
        simp [minorLookupQty, assocFind, List.find?]
      · have h' : ¬k = mk := fun hc => h hc.symm
        simp [minorLookupQty, assocFind, List.find?, h, h']
    · rw [if_neg hk]
      by_cases h : mk = k
      · subst h
        have hne : ¬mk = K := fun hc => hk hc
        simp [minorLookupQty, assocFind, List.find?, hne]
      · have h' : ¬k = mk := fun hc => h hc.symm
        have hfind : ∀ (l : List (String × DMinorAgg)),
            minorLookupQty ((k, v) :: l) mk = minorLookupQty l mk := by
          intro l
          simp [minorLookupQty, assocFind, List.find?, h']
        have hfindK : minorLookupQty ((k, v) :: rest) K = minorLookupQty rest K := by
          simp [minorLookupQty, assocFind, List.find?, hk]
        rw [hfind, hfind, ih, hfindK]

theorem majorLookupQty_dInsertMajor (S : List (String × DMajorAgg)) (M K : String)
    (item : ProductData) (k : String) :
    majorLookupQty (dInsertMajor S M K item) k =
      if k = M then majorLookupQty S M + item.netQuantity
      else majorLookupQty S k := by
  induction S with
  | nil =>
    by_cases h : k = M
    · subst h
      simp [dInsertMajor, majorLookupQty, assocFind, List.find?]
    · have h' : ¬M = k := fun hc => h hc.symm
      simp [dInsertMajor, majorLookupQty, assocFind, List.find?, h, h']
  | cons kv rest ih =>
    obtain ⟨k', v⟩ := kv
    rw [dInsertMajor]
    by_cases hk : k' = M
    · subst hk
      by_cases h : k = k'
      · subst h
        simp [majorLookupQty, assocFind, List.find?]
      · have h' : ¬k' = k := fun hc => h hc.symm
        simp [majorLookupQty, assocFind, List.find?, h, h']
    · rw [if_neg hk]
      by_cases h : k = k'
      · subst h
        have hne : ¬k = M := fun hc => hk hc
        simp [majorLookupQty, assocFind, List.find?, hne]
      · have h' : ¬k' = k := fun hc => h hc.symm
        have hfind : ∀ (l : List (String × DMajorAgg)),
            majorLookupQty ((k', v) :: l) k = majorLookupQty l k := by
          intro l
          simp [majorLookupQty, assocFind, List.find?, h']
        have hfindM : majorLookupQty ((k', v) :: rest) M = majorLookupQty rest M := by
          simp [majorLookupQty, assocFind, List.find?, hk]
        rw [hfind, hfind, ih, hfindM]

theorem majorMinorLookupQty_dInsertMajor (S : List (String × DMajorAgg)) (M K : String)
    (item : ProductData) (k mk : String) :
    majorMinorLookupQty (dInsertMajor S M K item) k mk =
      if k = M then
        (if mk = K then majorMinorLookupQty S M K + item.netQuantity
         else majorMinorLookupQty S M mk)
      else majorMinorLookupQty S k mk := by
  induction S with
  | nil =>
    by_cases h : k = M
    · subst h
      by_cases hmk : mk = K
      · subst hmk
        simp [dInsertMajor, majorMinorLookupQty, assocFind, List.find?,
          minorLookupQty_dInsertMinor, minorLookupQty]
      · have hmk' : ¬K = mk := fun hc => hmk hc.symm
        simp [dInsertMajor, majorMinorLookupQty, assocFind, List.find?,
          minorLookupQty, hmk, hmk']
    · have h' : ¬M = k := fun hc => h hc.symm
      simp [dInsertMajor, majorMinorLookupQty, assocFind, List.find?, h, h']
  | cons kv rest ih =>
    obtain ⟨k', v⟩ := kv
    rw [dInsertMajor]
    by_cases hk : k' = M
    · subst hk
      by_cases h : k = k'
      · subst h
        simp [majorMinorLookupQty, assocFind, List.find?, minorLookupQty_dInsertMinor]
      · have h' : ¬k' = k := fun hc => h hc.symm
        simp [majorMinorLookupQty, assocFind, List.find?, h, h']
    · rw [if_neg hk]
      by_cases h : k = k'
      · subst h
        have hne : ¬k = M := fun hc => hk hc
        simp [majorMinorLookupQty, assocFind, List.find?, hne]
      · have h' : ¬k' = k := fun hc => h hc.symm
        have hfind : ∀ (l : List (String × DMajorAgg)),
            majorMinorLookupQty ((k', v) :: l) k mk = majorMinorLookupQty l k mk := by
          intro l
          simp [majorMinorLookupQty, assocFind, List.find?, h']
        have hfindM : ∀ mk' : String,
            majorMinorLookupQty ((k', v) :: rest) M mk' = majorMinorLookupQty rest M mk' := by
          intro mk'
          simp [majorMinorLookupQty, assocFind, List.find?, hk]
        rw [hfind, hfind, ih, hfindM, hfindM]

theorem majorQtyOf_append (data : List ProductData) (item : ProductData) (k : String) :
    majorQtyOf (data ++ [item]) k =
      if item.majorCategory.getD "미분류" = k then majorQtyOf data k + item.netQuantity
      else majorQtyOf data k := by
  unfold majorQtyOf
  rw [List.foldl_append]
  rfl

theorem minorQtyOf_append (data : List ProductData) (item : ProductData) (k mk : String) :
    minorQtyOf (data ++ [item]) k mk =
      if item.majorCategory.getD "미분류" = k ∧ item.minorCategory.getD "기타" = mk then
        minorQtyOf data k mk + item.netQuantity
      else minorQtyOf data k mk := by
  unfold minorQtyOf
  rw [List.foldl_append]
  rfl

theorem dAggregate_foldl_qty (l : List ProductData) :
    ∀ (S : List (String × DMajorAgg)) (processed : List ProductData),
      (∀ k, majorLookupQty S k = majorQtyOf processed k) →
      (∀ k mk, majorMinorLookupQty S k mk = minorQtyOf processed k mk) →
      (∀ k, majorLookupQty
          (l.foldl (fun s item => dInsertMajor s (item.majorCategory.getD "미분류")
            (item.minorCategory.getD "기타") item) S) k = majorQtyOf (processed ++ l) k) ∧
      (∀ k mk, majorMinorLookupQty
          (l.foldl (fun s item => dInsertMajor s (item.majorCategory.getD "미분류")
            (item.minorCategory.getD "기타") item) S) k mk =
        minorQtyOf (processed ++ l) k mk) := by
  induction l with
  | nil =>
    intro S processed hmaj hmin
    simpa using ⟨hmaj, hmin⟩
  | cons x xs ih =>
    intro S processed hmaj hmin
    have hmaj' : ∀ k, majorLookupQty
        (dInsertMajor S (x.majorCategory.getD "미분류") (x.minorCategory.getD "기타") x) k =
        majorQtyOf (processed ++ [x]) k := by
      intro k
      rw [majorLookupQty_dInsertMajor, majorQtyOf_append]
      by_cases h : k = x.majorCategory.getD "미분류"
      · subst h
        rw [if_pos rfl, if_pos rfl, hmaj]
      · rw [if_neg h, if_neg (fun hc => h hc.symm), hmaj]
    have hmin' : ∀ k mk, majorMinorLookupQty
        (dInsertMajor S (x.majorCategory.getD "미분류") (x.minorCategory.getD "기타") x) k mk =
        minorQtyOf (processed ++ [x]) k mk := by
      intro k mk
      rw [majorMinorLookupQty_dInsertMajor, minorQtyOf_append]
      by_cases h : k = x.majorCategory.getD "미분류"
      · subst h
        rw [if_pos rfl]
        by_cases hmk : mk = x.minorCategory.getD "기타"
        · subst hmk
          rw [if_pos rfl, if_pos ⟨rfl, rfl⟩, hmin]
        · rw [if_neg hmk, if_neg (fun hc => hmk hc.2.symm), hmin]
      · rw [if_neg h, if_neg (fun hc => h hc.1.symm), hmin]
    have := ih _ (processed ++ [x]) hmaj' hmin'
    simpa [List.append_assoc] using this

theorem dAggregate_majorQty (data : List ProductData) (k : String) :
    majorLookupQty (dAggregate data) k = majorQtyOf data k := by
  have h := (dAggregate_foldl_qty data [] [] (fun _ => rfl) (fun _ _ => rfl)).1 k
  simpa [dAggregate] using h

theorem dAggregate_minorQty (data : List ProductData) (k mk : String) :
    majorMinorLookupQty (dAggregate data) k mk = minorQtyOf data k mk := by
  have h := (dAggregate_foldl_qty data [] [] (fun _ => rfl) (fun _ _ => rfl)).2 k mk
  simpa [dAggregate] using h

theorem dInsertMinor_keys (minors : List (String × DMinorAgg)) (K : String)
    (item : ProductData) :
    (dInsertMinor minors K item).map Prod.fst =
      if K ∈ minors.map Prod.fst then minors.map Prod.fst
      else minors.map Prod.fst ++ [K] := by
  induction minors with
  | nil => simp [dInsertMinor]
  | cons kv rest ih =>
    obtain ⟨k, v⟩ := kv
    rw [dInsertMinor]
    by_cases hk : k = K
    · subst hk
      simp
    · have hk' : ¬K = k := fun hc => hk hc.symm
      rw [if_neg hk]
      by_cases hmem : K ∈ rest.map Prod.fst <;>
        simp [ih, hmem, hk']

theorem dInsertMajor_keys (S : List (String × DMajorAgg)) (M K : String)
    (item : ProductData) :
    (dInsertMajor S M K item).map Prod.fst =
      if M ∈ S.map Prod.fst then S.map Prod.fst else S.map Prod.fst ++ [M] := by
  induction S with
  | nil => simp [dInsertMajor]
  | cons kv rest ih =>
    obtain ⟨k, v⟩ := kv
    rw [dInsertMajor]
    by_cases hk : k = M
    · subst hk
      simp
    · have hk' : ¬M = k := fun hc => hk hc.symm
      rw [if_neg hk]
      by_cases hmem : M ∈ rest.map Prod.fst <;>
        simp [ih, hmem, hk']

theorem dInsertMinor_keys_nodup (minors : List (String × DMinorAgg)) (K : String)
    (item : ProductData) (h : (minors.map Prod.fst).Nodup) :
    ((dInsertMinor minors K item).map Prod.fst).Nodup := by
  rw [dInsertMinor_keys]
  by_cases hmem : K ∈ minors.map Prod.fst
  · rwa [if_pos hmem]
  · rw [if_neg hmem]
    simp [List.nodup_append, h, hmem]

theorem dInsertMajor_keys_nodup (S : List (String × DMajorAgg)) (M K : String)
    (item : ProductData) (h : (S.map Prod.fst).Nodup) :
    ((dInsertMajor S M K item).map Prod.fst).Nodup := by
  rw [dInsertMajor_keys]
  by_cases hmem : M ∈ S.map Prod.fst
  · rwa [if_pos hmem]
  · rw [if_neg hmem]
    simp [List.nodup_append, h, hmem]

/-- Each major entry's minors association list keeps distinct keys. -/
def MinorsKeysNodup (S : List (String × DMajorAgg)) : Prop :=
  ∀ kv ∈ S, (kv.2.minors.map Prod.fst).Nodup

theorem dInsertMajor_minorsKeysNodup (S : List (String × DMajorAgg)) (M K : String)
    (item : ProductData) (h : MinorsKeysNodup S) :
    MinorsKeysNodup (dInsertMajor S M K item) := by
  induction S with
  | nil =>
    intro kv hkv
    simp only [dInsertMajor, List.mem_singleton] at hkv
    subst hkv
    simp [dInsertMinor]
  | cons hd rest ih =>
    obtain ⟨k, v⟩ := hd
    rw [dInsertMajor]
    by_cases hk : k = M
    · subst hk
      rw [if_pos rfl]
      intro kv hkv
      rcases List.mem_cons.mp hkv with rfl | hmem
      · exact dInsertMinor_keys_nodup v.minors K item (h (k, v) (List.mem_cons_self _ _))
      · exact h kv (List.mem_cons_of_mem _ hmem)
    · rw [if_neg hk]
      intro kv hkv
      rcases List.mem_cons.mp hkv with rfl | hmem
      · exact h _ (List.mem_cons_self _ _)
      · exact ih (fun kv' hkv' => h kv' (List.mem_cons_of_mem _ hkv')) kv hmem

theorem dAggregate_nodup (data : List ProductData) :
    ((dAggregate data).map Prod.fst).Nodup ∧ MinorsKeysNodup (dAggregate data) := by
  suffices h : ∀ (l : List ProductData) (S : List (String × DMajorAgg)),
      (S.map Prod.fst).Nodup → MinorsKeysNodup S →
      ((l.foldl (fun s item => dInsertMajor s (item.majorCategory.getD "미분류")
        (item.minorCategory.getD "기타") item) S).map Prod.fst).Nodup ∧
      MinorsKeysNodup (l.foldl (fun s item => dInsertMajor s (item.majorCategory.getD "미분류")
        (item.minorCategory.getD "기타") item) S) by
    exact h data [] (by simp) (by intro kv hkv; simp at hkv)
  intro l
  induction l with
  | nil => intro S h1 h2; exact ⟨h1, h2⟩
  | cons x xs ih =>
    intro S h1 h2
    exact ih _ (dInsertMajor_keys_nodup S _ _ x h1) (dInsertMajor_minorsKeysNodup S _ _ x h2)

theorem assocFind_of_mem {α : Type} (S : List (String × α)) (kv : String × α)
    (hnd : (S.map Prod.fst).Nodup) (h : kv ∈ S) : assocFind S kv.1 = some kv.2 := by
  induction S with
  | nil => simp at h
  | cons hd rest ih =>
    rw [List.map_cons, List.nodup_cons] at hnd
    rcases List.mem_cons.mp h with rfl | hmem
    · simp [assocFind, List.find?]
    · have hne : ¬hd.1 = kv.1 := by
        intro hc
        exact hnd.1 (hc ▸ List.mem_map.mpr ⟨kv, hmem, rfl⟩)
      simp only [assocFind, List.find?, decide_eq_false hne]
      exact ih hnd.2 hmem

/-- C5 (amended): hierarchical shares are quantity-based at every level —
majorShare = major netQuantity / period totalNetQuantity, minorShare = minor
netQuantity / parent major netQuantity, productShare = product netQuantity /
parent minor netQuantity, each as a percentage — but each share is 0 whenever
its denominator is zero **or negative** (the guard is `denominator > 0`, not
`≠ 0`); the spreadsheet export computes the same quantity-based ratios as
fractions, and no level's share is computed from amounts. -/
theorem hierarchical_shares_quantity_based (fd : FileData)
    (koCmp : String → String → ℤ) (key : DSortKey) (dir : SortDirection)
    (term : String) :
    ∀ maj ∈ dashboardHierarchicalData fd koCmp key dir term,
      maj.quantity = majorQtyOf fd.data maj.name ∧
      maj.share =
        (if 0 < fd.totalNetQuantity then maj.quantity / fd.totalNetQuantity * 100 else 0) ∧
      maj.share = 100 * exportMajorShare fd maj.name ∧
      (fd.totalNetQuantity = 0 → maj.share = 0) ∧
      ∀ mi ∈ maj.minors,
        mi.quantity = minorQtyOf fd.data maj.name mi.name ∧
        mi.share = (if 0 < maj.quantity then mi.quantity / maj.quantity * 100 else 0) ∧
        mi.share = 100 * exportMinorShare fd maj.name mi.name ∧
        (maj.quantity = 0 → mi.share = 0) ∧
        ∀ p ∈ mi.products,
          p.share =
            some (if 0 < mi.quantity then p.netQuantity / mi.quantity * 100 else 0) ∧
          p.share = some (100 * exportProductShare fd maj.name mi.name p.netQuantity) := by
  intro maj hmaj
  rw [dashboardHierarchicalData, List.mem_mergeSort] at hmaj
  obtain ⟨kv, hkvf, rfl⟩ := List.mem_map.mp hmaj
  have hkv : kv ∈ dAggregate fd.data := List.mem_of_mem_filter hkvf
  obtain ⟨hnodup, hminors⟩ := dAggregate_nodup fd.data
  have hfind : assocFind (dAggregate fd.data) kv.1 = some kv.2 :=
    assocFind_of_mem _ kv hnodup hkv
  have hq : kv.2.quantity = majorQtyOf fd.data kv.1 := by
    have := dAggregate_majorQty fd.data kv.1
    rw [majorLookupQty, hfind] at this
    simpa using this
  have hminq : ∀ mkv ∈ kv.2.minors, mkv.2.quantity = minorQtyOf fd.data kv.1 mkv.1 := by
    intro mkv hmkv
    have hfind2 : assocFind kv.2.minors mkv.1 = some mkv.2 :=
      assocFind_of_mem _ mkv (hminors kv hkv) hmkv
    have h1 := dAggregate_minorQty fd.data kv.1 mkv.1
    rw [majorMinorLookupQty, hfind] at h1
    simp only [Option.map, Option.getD] at h1
    rw [minorLookupQty, hfind2] at h1
    simpa using h1
  refine ⟨by simpa [dMajorOutOf] using hq, by simp [dMajorOutOf], ?_, ?_, ?_⟩
  · simp only [dMajorOutOf, exportMajorShare]
    rw [← hq]
    by_cases ht : 0 < fd.totalNetQuantity
    · rw [if_pos ht, if_pos ht]
      ring
    · rw [if_neg ht, if_neg ht]
      ring
  · intro h0
    simp [dMajorOutOf, h0]
  · intro mi hmi
    simp only [dMajorOutOf] at hmi
    rw [List.mem_mergeSort] at hmi
    obtain ⟨mkv, hmkvmem, rfl⟩ := List.mem_map.mp hmi
    have hmq : mkv.2.quantity = minorQtyOf fd.data kv.1 mkv.1 := hminq mkv hmkvmem
    refine ⟨by simpa [dMinorOutOf, dMajorOutOf] using hmq,
      by simp [dMinorOutOf, dMajorOutOf], ?_, ?_, ?_⟩
    · simp only [dMinorOutOf, dMajorOutOf, exportMinorShare]
      rw [← hq, ← hmq]
      by_cases ht : 0 < kv.2.quantity
      · rw [if_pos ht, if_pos ht]
        ring
      · rw [if_neg ht, if_neg ht]
        ring
    · intro h0
      simp only [dMajorOutOf] at h0
      simp [dMinorOutOf, h0]
    · intro p hp
      simp only [dMinorOutOf] at hp
      rw [List.mem_mergeSort] at hp
      obtain ⟨p0, hp0mem, rfl⟩ := List.mem_map.mp hp
      refine ⟨by simp [dMinorOutOf], ?_⟩
      simp only [dMinorOutOf, dMajorOutOf, exportProductShare]
      rw [← hmq]
      by_cases ht : 0 < mkv.2.quantity
      · rw [if_pos ht, if_pos ht]
        norm_num
        ring
      · rw [if_neg ht, if_neg ht]
        norm_num

def c5cItem : ProductData :=
  ⟨"의자 리클라이너", 1, 5, -4, 1, 0, 1, 0, 0, 0, some "의자", some "의자", none⟩

def c5cFd : FileData := ⟨"f", [c5cItem], 0, 0, -4, 0⟩

/-- C5 counterexample: a refund-heavy period has totalNetQuantity = -4 (a
nonzero denominator), its sole major also has netQuantity -4, and the claim's
formula majorShare = major netQuantity / period totalNetQuantity gives
(-4)/(-4)*100 = 100; the code renders share 0 because its guard is `> 0`. -/
theorem hierarchical_share_negative_total_counterexample :
    (dashboardHierarchicalData c5cFd (fun _ _ => 0) DSortKey.amount SortDirection.desc "").map
      (fun m => (m.name, m.quantity, m.share)) = [("의자", -4, 0)] ∧
    (-4 : ℚ) / (-4) * 100 = 100 ∧ (0 : ℚ) ≠ 100 := by
  refine ⟨?_, by norm_num, by norm_num⟩
  have hagg : dAggregate c5cFd.data =
      [("의자", ⟨0 + 0, 0 + -4, 0 + 1, [("의자", ⟨0 + 0, 0 + -4, 0 + 1, [c5cItem]⟩)]⟩)] := rfl
  rw [dashboardHierarchicalData, hagg]
  norm_num [dMajorOutOf, dMinorOutOf, c5cFd, List.filter, strContains, strToLower,
    charsSub, charsPrefix]

def c5wItem : ProductData :=
  ⟨"모션데스크 프리미엄", 2, 0, 2, 1, 0, 1, 10, 0, 10, some "모션데스크", some "프리미엄", none⟩

def c5wFd : FileData := ⟨"f", [c5wItem], 10, 10, 2, 1⟩

def c5wMaj : DMajorOut :=
  dMajorOutOf (fun _ _ => 0) DSortKey.amount SortDirection.desc (2 : ℚ)
    ("모션데스크", ⟨0 + 10, 0 + 2, 0 + 1, [("프리미엄", ⟨0 + 10, 0 + 2, 0 + 1, [c5wItem]⟩)]⟩)

/-- Witness for C5 at a concrete single-item period. -/
theorem hierarchical_shares_quantity_based_witness :
    c5wMaj.quantity = majorQtyOf c5wFd.data c5wMaj.name ∧
    c5wMaj.share =
      (if 0 < c5wFd.totalNetQuantity then c5wMaj.quantity / c5wFd.totalNetQuantity * 100
       else 0) ∧
    c5wMaj.share = 100 * exportMajorShare c5wFd c5wMaj.name := by
  have hagg : dAggregate c5wFd.data =
      [("모션데스크", ⟨0 + 10, 0 + 2, 0 + 1, [("프리미엄", ⟨0 + 10, 0 + 2, 0 + 1, [c5wItem]⟩)]⟩)] := rfl
  have hm : c5wMaj ∈
      dashboardHierarchicalData c5wFd (fun _ _ => 0) DSortKey.amount SortDirection.desc "" := by
    rw [dashboardHierarchicalData, hagg, List.mem_mergeSort]
    simp only [List.filter, strContains, strToLower, charsSub, charsPrefix, List.map]
    exact List.mem_singleton.mpr rfl
  have h := hierarchical_shares_quantity_based c5wFd (fun _ _ => 0) DSortKey.amount
    SortDirection.desc "" c5wMaj hm
  exact ⟨h.1, h.2.1, h.2.2.1⟩

def c6Item1 : ProductData :=
  ⟨"모션데스크 프리미엄", 1, 0, 1, 1, 0, 1, 5, 0, 5, some "모션데스크", some "프리미엄", none⟩

def c6Item2 : ProductData :=
  ⟨"철제책장 1200", 1, 0, 1, 1, 0, 1, 0, 5, -5, some "책장", some "철제", none⟩

def c6Fd : FileData := ⟨"f", [c6Item1, c6Item2], 5, 0, 2, 2⟩

/-- C6: the category-breakdown share (Dashboard.tsx categoryStats) divides by
totalNetAmount without a guard: on a period whose net amounts sum to 0 it
produces Infinity and -Infinity, not 0 — while the guarded share sites (such
as the per-item share of App.tsx) do yield 0 on a zero denominator. -/
theorem category_breakdown_share_not_finite :
    (⟨"모션데스크", 0 + 5, 0 + 1, 0 + 1, JSNum.posInf⟩ : CatStat) ∈ categoryStats c6Fd ∧
    (⟨"책장", 0 + -5, 0 + 1, 0 + 1, JSNum.negInf⟩ : CatStat) ∈ categoryStats c6Fd ∧
    appItemShare 0 5 = 0 := by
  have hagg : categoryStatsAgg c6Fd.data =
      [("모션데스크", (0 + 5, 0 + 1, 0 + 1)), ("책장", (0 + -5, 0 + 1, 0 + 1))] := rfl
  refine ⟨?_, ?_, by norm_num [appItemShare]⟩
  · rw [categoryStats, List.mem_mergeSort, hagg]
    simp only [List.map]
    refine List.mem_cons.mpr (Or.inl ?_)
    simp only [CatStat.mk.injEq]
    norm_num [jsDiv, jsMulConst, c6Fd]
  · rw [categoryStats, List.mem_mergeSort, hagg]
    simp only [List.map]
    refine List.mem_cons.mpr (Or.inr (List.mem_cons.mpr (Or.inl ?_)))
    simp only [CatStat.mk.injEq]
    norm_num [jsDiv, jsMulConst, c6Fd]

/-! ## Two-period comparison aggregation
(src/components/ComparisonDashboard.tsx hierarchicalData)

Per node, `stats` is one `(netQuantity, netAmount, netCount)` triple per file
index (the source's `stats: number[][]`, `files.map(() => [0,0,0])`).  Minor
and major statistics are accumulated (`+=`); the product entry's statistics
are assigned (`=`). -/

structure CProdEntry where
  name : String
  stats : List Triple
  deriving Repr, DecidableEq

structure CMinorEntry where
  stats : List Triple
  products : List CProdEntry
  deriving Repr, DecidableEq

structure CMajorEntry where
  stats : List Triple
  minors : List (String × CMinorEntry)
  deriving Repr, DecidableEq

abbrev CStructure := List (String × CMajorEntry)

def statsAt (ss : List Triple) (i : Nat) : Triple := ss.getD i zeroTriple

def setAt (ss : List Triple) (i : Nat) (t : Triple) : List Triple := ss.set i t

def bumpAt (ss : List Triple) (i : Nat) (t : Triple) : List Triple :=
  ss.set i (statsAt ss i + t)

def itemTriple (p : ProductData) : Triple := (p.netQuantity, p.netAmount, p.netCount)

def cInsertProd : List CProdEntry → String → Nat → Nat → Triple → List CProdEntry
  | [], nm, nf, i, t => [⟨nm, setAt (List.replicate nf zeroTriple) i t⟩]
  | e :: rest, nm, nf, i, t =>
    if e.name = nm then ⟨e.name, setAt e.stats i t⟩ :: rest
    else e :: cInsertProd rest nm nf i t

def cInsertMinor : List (String × CMinorEntry) → String → String → Nat → Nat → Triple →
    List (String × CMinorEntry)
  | [], mk, nm, nf, i, t =>
    [(mk, ⟨bumpAt (List.replicate nf zeroTriple) i t, cInsertProd [] nm nf i t⟩)]
  | (k, v) :: rest, mk, nm, nf, i, t =>
    if k = mk then (k, ⟨bumpAt v.stats i t, cInsertProd v.products nm nf i t⟩) :: rest
    else (k, v) :: cInsertMinor rest mk nm nf i t

def cInsertMajor : CStructure → String → String → String → Nat → Nat → Triple → CStructure
  | [], maj, mk, nm, nf, i, t =>
    [(maj, ⟨bumpAt (List.replicate nf zeroTriple) i t, cInsertMinor [] mk nm nf i t⟩)]
  | (k, v) :: rest, maj, mk, nm, nf, i, t =>
    if k = maj then (k, ⟨bumpAt v.stats i t, cInsertMinor v.minors mk nm nf i t⟩) :: rest
    else (k, v) :: cInsertMajor rest maj mk nm nf i t

def cInsertItem (S : CStructure) (nf i : Nat) (p : ProductData) : CStructure :=
  cInsertMajor S (p.majorCategory.getD "미분류") (p.minorCategory.getD "기타")
    p.productName nf i (itemTriple p)

/-- The source's nested `files.forEach((file, fileIdx) => file.data.forEach(p => …))`. -/
def buildCStructure (files : List FileData) : CStructure :=
  files.enum.foldl
    (fun S idxFile =>
      idxFile.2.data.foldl (fun S p => cInsertItem S files.length idxFile.1 p) S)
    []

def listProdSumAt (ps : List CProdEntry) (i : Nat) : Triple :=
  (ps.map fun pe => statsAt pe.stats i).sum

def listMinorSumAt (minors : List (String × CMinorEntry)) (i : Nat) : Triple :=
  (minors.map fun mkv => statsAt mkv.2.stats i).sum

def productsSumAt (mv : CMinorEntry) (i : Nat) : Triple := listProdSumAt mv.products i

def minorsSumAt (me : CMajorEntry) (i : Nat) : Triple := listMinorSumAt me.minors i

theorem zeroTriple_eq_zero : zeroTriple = 0 := rfl

theorem statsAt_replicate (nf i : Nat) : statsAt (List.replicate nf zeroTriple) i = zeroTriple := by
  induction nf generalizing i with
  | zero => cases i <;> rfl
  | succ n ih =>
    cases i with
    | zero => rfl
    | succ j => exact ih j

theorem statsAt_set (ss : List Triple) (i j : Nat) (t : Triple) (hi : i < ss.length) :
    statsAt (setAt ss i t) j = if i = j then t else statsAt ss j := by
  induction ss generalizing i j with
  | nil => simp at hi
  | cons a as ih =>
    cases i with
    | zero =>
      cases j with
      | zero => rfl
      | succ j' => rfl
    | succ i' =>
      cases j with
      | zero => simp [setAt, statsAt, List.set]
      | succ j' =>
        have hi' : i' < as.length := by simpa using hi
        have := ih i' j' hi'
        simp only [setAt, List.set, statsAt, List.getD] at this ⊢
        simpa [Nat.succ_inj] using this

theorem statsAt_bump (ss : List Triple) (i j : Nat) (t : Triple) (hi : i < ss.length) :
    statsAt (bumpAt ss i t) j = if i = j then statsAt ss i + t else statsAt ss j :=
  statsAt_set ss i j (statsAt ss i + t) hi

theorem length_setAt (ss : List Triple) (i : Nat) (t : Triple) :
    (setAt ss i t).length = ss.length := List.length_set ss i t

theorem length_bumpAt (ss : List Triple) (i : Nat) (t : Triple) :
    (bumpAt ss i t).length = ss.length := List.length_set ss i _

/-- No product entry named `nm` has yet been assigned a value at file index
`i` (the entry, if present, still holds the zero triple there). -/
def CProdFresh (ps : List CProdEntry) (nm : String) (i : Nat) : Prop :=
  ∀ pe ∈ ps, pe.name = nm → statsAt pe.stats i = zeroTriple

theorem cInsertProd_len (nm : String) (nf i : Nat) (t : Triple) :
    ∀ ps : List CProdEntry, (∀ pe ∈ ps, pe.stats.length = nf) →
    ∀ pe ∈ cInsertProd ps nm nf i t, pe.stats.length = nf := by
  intro ps
  induction ps with
  | nil =>
    intro _ pe hpe
    simp only [cInsertProd, List.mem_singleton] at hpe
    subst hpe
    simp [setAt]
  | cons e rest ih =>
    intro hlen pe hpe
    rw [cInsertProd] at hpe
    by_cases he : e.name = nm
    · rw [if_pos he] at hpe
      rcases List.mem_cons.mp hpe with rfl | hmem
      · simpa [setAt] using hlen e (List.mem_cons_self _ _)
      · exact hlen pe (List.mem_cons_of_mem _ hmem)
    · rw [if_neg he] at hpe
      rcases List.mem_cons.mp hpe with rfl | hmem
      · exact hlen _ (List.mem_cons_self _ _)
      · exact ih (fun pe' hpe' => hlen pe' (List.mem_cons_of_mem _ hpe')) pe hmem

theorem cInsertProd_sum (nm : String) (nf i j : Nat) (t : Triple) (hi : i < nf) :
    ∀ ps : List CProdEntry, (∀ pe ∈ ps, pe.stats.length = nf) → CProdFresh ps nm i →
    listProdSumAt (cInsertProd ps nm nf i t) j =
      listProdSumAt ps j + (if i = j then t else 0) := by
  intro ps
  induction ps with
  | nil =>
    intro _ _
    rw [cInsertProd]
    simp only [listProdSumAt, List.map, List.sum_cons, List.sum_nil]
    rw [statsAt_set _ _ _ _ (by simpa using hi), statsAt_replicate]
    by_cases h : i = j <;> simp [h, zeroTriple_eq_zero]
  | cons e rest ih =>
    intro hlen hfresh
    rw [cInsertProd]
    by_cases he : e.name = nm
    · rw [if_pos he]
      simp only [listProdSumAt, List.map, List.sum_cons]
      rw [statsAt_set _ _ _ _ (by rw [hlen e (List.mem_cons_self _ _)]; exact hi)]
      have h0 : statsAt e.stats i = zeroTriple := hfresh e (List.mem_cons_self _ _) he
      by_cases h : i = j
      · subst h
        rw [if_pos rfl, if_pos rfl, h0, zeroTriple_eq_zero]
        abel
      · simp only [if_neg h]
        abel
    · rw [if_neg he]
      simp only [listProdSumAt, List.map, List.sum_cons]
      rw [show (List.map (fun pe => statsAt pe.stats j) (cInsertProd rest nm nf i t)).sum =
        listProdSumAt (cInsertProd rest nm nf i t) j from rfl,
        ih (fun pe' hpe' => hlen pe' (List.mem_cons_of_mem _ hpe'))
          (fun pe' hpe' hnm => hfresh pe' (List.mem_cons_of_mem _ hpe') hnm)]
      simp only [listProdSumAt]
      abel

theorem cInsertProd_fresh (nm nm' : String) (nf i i' : Nat) (t : Triple)
    (hi : i < nf) (hne : ¬(nm' = nm ∧ i' = i)) :
    ∀ ps : List CProdEntry, (∀ pe ∈ ps, pe.stats.length = nf) → CProdFresh ps nm' i' →
    CProdFresh (cInsertProd ps nm nf i t) nm' i' := by
  intro ps
  induction ps with
  | nil =>
    intro _ _ pe hpe hname
    simp only [cInsertProd, List.mem_singleton] at hpe
    subst hpe
    simp only at hname
    have hii : ¬i = i' := fun hc => hne ⟨hname.symm, hc.symm⟩
    rw [statsAt_set _ _ _ _ (by simpa using hi), if_neg hii, statsAt_replicate]
  | cons e rest ih =>
    intro hlen hfresh pe hpe hname
    rw [cInsertProd] at hpe
    by_cases he : e.name = nm
    · rw [if_pos he] at hpe
      rcases List.mem_cons.mp hpe with rfl | hmem
      · simp only at hname
        have hii : ¬i = i' := fun hc => hne ⟨by rw [← hname, he], hc.symm⟩
        rw [statsAt_set _ _ _ _ (by rw [hlen e (List.mem_cons_self _ _)]; exact hi),
          if_neg hii]
        exact hfresh e (List.mem_cons_self _ _) hname
      · exact hfresh pe (List.mem_cons_of_mem _ hmem) hname
    · rw [if_neg he] at hpe
      rcases List.mem_cons.mp hpe with rfl | hmem
      · exact hfresh _ (List.mem_cons_self _ _) hname
      · exact ih (fun pe' hpe' => hlen pe' (List.mem_cons_of_mem _ hpe'))
          (fun pe' hpe' h => hfresh pe' (List.mem_cons_of_mem _ hpe') h) pe hmem hname

def CMinorsFresh (minors : List (String × CMinorEntry)) (nm : String) (i : Nat) : Prop :=
  ∀ mkv ∈ minors, CProdFresh mkv.2.products nm i

def CMinorsLen (nf : Nat) (minors : List (String × CMinorEntry)) : Prop :=
  ∀ mkv ∈ minors, mkv.2.stats.length = nf ∧ ∀ pe ∈ mkv.2.products, pe.stats.length = nf

def CMinorsOK (minors : List (String × CMinorEntry)) : Prop :=
  ∀ mkv ∈ minors, ∀ j, statsAt mkv.2.stats j = productsSumAt mkv.2 j

theorem cInsertMinor_len (mk nm : String) (nf i : Nat) (t : Triple) :
    ∀ minors, CMinorsLen nf minors →
    CMinorsLen nf (cInsertMinor minors mk nm nf i t) := by
  intro minors
  induction minors with
  | nil =>
    intro _ mkv hmkv
    simp only [cInsertMinor, List.mem_singleton] at hmkv
    subst hmkv
    exact ⟨by simp [bumpAt], cInsertProd_len nm nf i t [] (by simp)⟩
  | cons kv rest ih =>
    obtain ⟨k, v⟩ := kv
    intro hlen mkv hmkv
    rw [cInsertMinor] at hmkv
    by_cases hk : k = mk
    · rw [if_pos hk] at hmkv
      rcases List.mem_cons.mp hmkv with rfl | hmem
      · refine ⟨by simpa [bumpAt] using (hlen (k, v) (List.mem_cons_self _ _)).1, ?_⟩
        exact cInsertProd_len nm nf i t v.products (hlen (k, v) (List.mem_cons_self _ _)).2
      · exact hlen mkv (List.mem_cons_of_mem _ hmem)
    · rw [if_neg hk] at hmkv
      rcases List.mem_cons.mp hmkv with rfl | hmem
      · exact hlen _ (List.mem_cons_self _ _)
      · exact ih (fun mkv' hmkv' => hlen mkv' (List.mem_cons_of_mem _ hmkv')) mkv hmem

theorem cInsertMinor_sum (mk nm : String) (nf i j : Nat) (t : Triple) (hi : i < nf) :
    ∀ minors, CMinorsLen nf minors →
    listMinorSumAt (cInsertMinor minors mk nm nf i t) j =
      listMinorSumAt minors j + (if i = j then t else 0) := by
  intro minors
  induction minors with
  | nil =>
    intro _
    rw [cInsertMinor]
    simp only [listMinorSumAt, List.map, List.sum_cons, List.sum_nil]
    rw [statsAt_bump _ _ _ _ (by simpa using hi)]
    simp only [statsAt_replicate]
    by_cases h : i = j <;> simp [h, zeroTriple_eq_zero]
  | cons kv rest ih =>
    obtain ⟨k, v⟩ := kv
    intro hlen
    rw [cInsertMinor]
    by_cases hk : k = mk
    · rw [if_pos hk]
      simp only [listMinorSumAt, List.map, List.sum_cons]
      rw [statsAt_bump _ _ _ _ (by
        rw [(hlen (k, v) (List.mem_cons_self _ _)).1]; exact hi)]
      by_cases h : i = j
      · subst h
        rw [if_pos rfl, if_pos rfl]
        abel
      · simp only [if_neg h]
        abel
    · rw [if_neg hk]
      simp only [listMinorSumAt, List.map, List.sum_cons]
      rw [show (List.map (fun mkv => statsAt mkv.2.stats j) (cInsertMinor rest mk nm nf i t)).sum =
        listMinorSumAt (cInsertMinor rest mk nm nf i t) j from rfl,
        ih (fun mkv' hmkv' => hlen mkv' (List.mem_cons_of_mem _ hmkv'))]
      simp only [listMinorSumAt]
      abel

theorem cInsertMinor_entriesOK (mk nm : String) (nf i : Nat) (t : Triple) (hi : i < nf) :
    ∀ minors, CMinorsLen nf minors → CMinorsOK minors → CMinorsFresh minors nm i →
    CMinorsOK (cInsertMinor minors mk nm nf i t) := by
  intro minors
  induction minors with
  | nil =>
    intro _ _ _ mkv hmkv j
    simp only [cInsertMinor, List.mem_singleton] at hmkv
    subst hmkv
    simp only [productsSumAt]
    rw [cInsertProd_sum nm nf i j t hi [] (by simp) (by intro pe hpe; simp at hpe),
      statsAt_bump _ _ _ _ (by simpa using hi)]
    simp only [statsAt_replicate, listProdSumAt, List.map_nil, List.sum_nil]
    by_cases h : i = j <;> simp [h, zeroTriple_eq_zero]
  | cons kv rest ih =>
    obtain ⟨k, v⟩ := kv
    intro hlen hok hfresh mkv hmkv j
    rw [cInsertMinor] at hmkv
    by_cases hk : k = mk
    · rw [if_pos hk] at hmkv
      rcases List.mem_cons.mp hmkv with rfl | hmem
      · simp only [productsSumAt]
        rw [cInsertProd_sum nm nf i j t hi v.products
            (hlen (k, v) (List.mem_cons_self _ _)).2
            (hfresh (k, v) (List.mem_cons_self _ _)),
          statsAt_bump _ _ _ _ (by
            rw [(hlen (k, v) (List.mem_cons_self _ _)).1]; exact hi)]
        have hv := hok (k, v) (List.mem_cons_self _ _) j
        have hvi := hok (k, v) (List.mem_cons_self _ _) i
        simp only [productsSumAt] at hv hvi
        by_cases h : i = j
        · subst h
          rw [if_pos rfl, if_pos rfl, hvi]
        · rw [if_neg h, if_neg h, hv]
          abel
      · exact hok mkv (List.mem_cons_of_mem _ hmem) j
    · rw [if_neg hk] at hmkv
      rcases List.mem_cons.mp hmkv with rfl | hmem
      · exact hok _ (List.mem_cons_self _ _) j
      · exact ih (fun mkv' h' => hlen mkv' (List.mem_cons_of_mem _ h'))
          (fun mkv' h' => hok mkv' (List.mem_cons_of_mem _ h'))
          (fun mkv' h' => hfresh mkv' (List.mem_cons_of_mem _ h')) mkv hmem j

theorem cInsertMinor_fresh (mk nm nm' : String) (nf i i' : Nat) (t : Triple)
    (hi : i < nf) (hne : ¬(nm' = nm ∧ i' = i)) :
    ∀ minors, CMinorsLen nf minors → CMinorsFresh minors nm' i' →
    CMinorsFresh (cInsertMinor minors mk nm nf i t) nm' i' := by
  intro minors
  induction minors with
  | nil =>
    intro _ _ mkv hmkv
    simp only [cInsertMinor, List.mem_singleton] at hmkv
    subst hmkv
    exact cInsertProd_fresh nm nm' nf i i' t hi hne [] (by simp)
      (by intro pe hpe; simp at hpe)
  | cons kv rest ih =>
    obtain ⟨k, v⟩ := kv
    intro hlen hfresh mkv hmkv
    rw [cInsertMinor] at hmkv
    by_cases hk : k = mk
    · rw [if_pos hk] at hmkv
      rcases List.mem_cons.mp hmkv with rfl | hmem
      · exact cInsertProd_fresh nm nm' nf i i' t hi hne v.products
          (hlen (k, v) (List.mem_cons_self _ _)).2
          (hfresh (k, v) (List.mem_cons_self _ _))
      · exact hfresh mkv (List.mem_cons_of_mem _ hmem)
    · rw [if_neg hk] at hmkv
      rcases List.mem_cons.mp hmkv with rfl | hmem
      · exact hfresh _ (List.mem_cons_self _ _)
      · exact ih (fun mkv' h' => hlen mkv' (List.mem_cons_of_mem _ h'))
          (fun mkv' h' => hfresh mkv' (List.mem_cons_of_mem _ h')) mkv hmem

def CLenOK (nf : Nat) (S : CStructure) : Prop :=
  ∀ kv ∈ S, kv.2.stats.length = nf ∧ CMinorsLen nf kv.2.minors

def CSumOK (S : CStructure) : Prop :=
  ∀ kv ∈ S, (∀ j, statsAt kv.2.stats j = minorsSumAt kv.2 j) ∧ CMinorsOK kv.2.minors

def CFresh (S : CStructure) (nm : String) (i : Nat) : Prop :=
  ∀ kv ∈ S, CMinorsFresh kv.2.minors nm i

theorem cInsertMajor_len (maj mk nm : String) (nf i : Nat) (t : Triple) :
    ∀ S, CLenOK nf S → CLenOK nf (cInsertMajor S maj mk nm nf i t) := by
  intro S
  induction S with
  | nil =>
    intro _ kv hkv
    simp only [cInsertMajor, List.mem_singleton] at hkv
    subst hkv
    exact ⟨by simp [bumpAt], cInsertMinor_len mk nm nf i t [] (by intro x hx; simp at hx)⟩
  | cons kv0 rest ih =>
    obtain ⟨k, v⟩ := kv0
    intro hlen kv hkv
    rw [cInsertMajor] at hkv
    by_cases hk : k = maj
    · rw [if_pos hk] at hkv
      rcases List.mem_cons.mp hkv with rfl | hmem
      · refine ⟨by simpa [bumpAt] using (hlen (k, v) (List.mem_cons_self _ _)).1, ?_⟩
        exact cInsertMinor_len mk nm nf i t v.minors (hlen (k, v) (List.mem_cons_self _ _)).2
      · exact hlen kv (List.mem_cons_of_mem _ hmem)
    · rw [if_neg hk] at hkv
      rcases List.mem_cons.mp hkv with rfl | hmem
      · exact hlen _ (List.mem_cons_self _ _)
      · exact ih (fun kv' h' => hlen kv' (List.mem_cons_of_mem _ h')) kv hmem

theorem cInsertMajor_SumOK (maj mk nm : String) (nf i : Nat) (t : Triple) (hi : i < nf) :
    ∀ S, CLenOK nf S → CSumOK S → CFresh S nm i →
    CSumOK (cInsertMajor S maj mk nm nf i t) := by
  intro S
  induction S with
  | nil =>
    intro _ _ _ kv hkv
    simp only [cInsertMajor, List.mem_singleton] at hkv
    subst hkv
    constructor
    · intro j
      simp only [minorsSumAt]
      rw [cInsertMinor_sum mk nm nf i j t hi [] (by intro x hx; simp at hx),
        statsAt_bump _ _ _ _ (by simpa using hi)]
      simp only [statsAt_replicate, listMinorSumAt, List.map_nil, List.sum_nil]
      by_cases h : i = j <;> simp [h, zeroTriple_eq_zero]
    · exact cInsertMinor_entriesOK mk nm nf i t hi [] (by intro x hx; simp at hx)
        (by intro x hx; simp at hx) (by intro x hx; simp at hx)
  | cons kv0 rest ih =>
    obtain ⟨k, v⟩ := kv0
    intro hlen hok hfresh kv hkv
    rw [cInsertMajor] at hkv
    by_cases hk : k = maj
    · rw [if_pos hk] at hkv
      rcases List.mem_cons.mp hkv with rfl | hmem
      · constructor
        · intro j
          simp only [minorsSumAt]
          rw [cInsertMinor_sum mk nm nf i j t hi v.minors
              (hlen (k, v) (List.mem_cons_self _ _)).2,
            statsAt_bump _ _ _ _ (by
              rw [(hlen (k, v) (List.mem_cons_self _ _)).1]; exact hi)]
          have hv := (hok (k, v) (List.mem_cons_self _ _)).1 j
          have hvi := (hok (k, v) (List.mem_cons_self _ _)).1 i
          simp only [minorsSumAt] at hv hvi
          by_cases h : i = j
          · subst h
            rw [if_pos rfl, if_pos rfl, hvi]
          · rw [if_neg h, if_neg h, hv]
            abel
        · exact cInsertMinor_entriesOK mk nm nf i t hi v.minors
            (hlen (k, v) (List.mem_cons_self _ _)).2
            (hok (k, v) (List.mem_cons_self _ _)).2
            (hfresh (k, v) (List.mem_cons_self _ _))
      · exact hok kv (List.mem_cons_of_mem _ hmem)
    · rw [if_neg hk] at hkv
      rcases List.mem_cons.mp hkv with rfl | hmem
      · exact hok _ (List.mem_cons_self _ _)
      · exact ih (fun kv' h' => hlen kv' (List.mem_cons_of_mem _ h'))
          (fun kv' h' => hok kv' (List.mem_cons_of_mem _ h'))
          (fun kv' h' => hfresh kv' (List.mem_cons_of_mem _ h')) kv hmem

theorem cInsertMajor_fresh (maj mk nm nm' : String) (nf i i' : Nat) (t : Triple)
    (hi : i < nf) (hne : ¬(nm' = nm ∧ i' = i)) :
    ∀ S, CLenOK nf S → CFresh S nm' i' →
    CFresh (cInsertMajor S maj mk nm nf i t) nm' i' := by
  intro S
  induction S with
  | nil =>
    intro _ _ kv hkv
    simp only [cInsertMajor, List.mem_singleton] at hkv
    subst hkv
    exact cInsertMinor_fresh mk nm nm' nf i i' t hi hne [] (by intro x hx; simp at hx)
      (by intro x hx; simp at hx)
  | cons kv0 rest ih =>
    obtain ⟨k, v⟩ := kv0
    intro hlen hfresh kv hkv
    rw [cInsertMajor] at hkv
    by_cases hk : k = maj
    · rw [if_pos hk] at hkv
      rcases List.mem_cons.mp hkv with rfl | hmem
      · exact cInsertMinor_fresh mk nm nm' nf i i' t hi hne v.minors
          (hlen (k, v) (List.mem_cons_self _ _)).2
          (hfresh (k, v) (List.mem_cons_self _ _))
      · exact hfresh kv (List.mem_cons_of_mem _ hmem)
    · rw [if_neg hk] at hkv
      rcases List.mem_cons.mp hkv with rfl | hmem
      · exact hfresh _ (List.mem_cons_self _ _)
      · exact ih (fun kv' h' => hlen kv' (List.mem_cons_of_mem _ h'))
          (fun kv' h' => hfresh kv' (List.mem_cons_of_mem _ h')) kv hmem

def cJobs : Nat → List FileData → List (Nat × ProductData)
  | _, [] => []
  | i, f :: fs => (f.data.map fun p => (i, p)) ++ cJobs (i + 1) fs

theorem buildC_eq_jobs_aux (nf : Nat) (fs : List FileData) :
    ∀ (i : Nat) (S : CStructure),
      (List.enumFrom i fs).foldl
        (fun S idxFile =>
          idxFile.2.data.foldl (fun S p => cInsertItem S nf idxFile.1 p) S) S =
      (cJobs i fs).foldl (fun S jb => cInsertItem S nf jb.1 jb.2) S := by
  induction fs with
  | nil => intro i S; rfl
  | cons f rest ih =>
    intro i S
    rw [cJobs, List.foldl_append, List.foldl_map]
    simp only [List.enumFrom, List.foldl_cons]
    exact ih (i + 1) _

theorem buildC_eq_jobs (files : List FileData) :
    buildCStructure files =
      (cJobs 0 files).foldl (fun S jb => cInsertItem S files.length jb.1 jb.2) [] :=
  buildC_eq_jobs_aux files.length files 0 []

theorem cJobs_bound (fs : List FileData) :
    ∀ i, ∀ jb ∈ cJobs i fs, i ≤ jb.1 ∧ jb.1 < i + fs.length := by
  induction fs with
  | nil => intro i jb hjb; simp [cJobs] at hjb
  | cons f rest ih =>
    intro i jb hjb
    rw [cJobs] at hjb
    rcases List.mem_append.mp hjb with hm | hm
    · obtain ⟨p, _, rfl⟩ := List.mem_map.mp hm
      simp
    · have := ih (i + 1) jb hm
      simp only [List.length_cons]
      omega

theorem cJobs_keys_nodup (fs : List FileData)
    (h : ∀ f ∈ fs, (f.data.map (fun p => p.productName)).Nodup) :
    ∀ i, ((cJobs i fs).map fun jb => (jb.2.productName, jb.1)).Nodup := by
  induction fs with
  | nil => intro i; simp [cJobs]
  | cons f rest ih =>
    intro i
    rw [cJobs, List.map_append, List.nodup_append]
    refine ⟨?_, ih (fun f' hf' => h f' (List.mem_cons_of_mem _ hf')) (i + 1), ?_⟩
    · rw [List.map_map]
      have : ((fun jb => (jb.2.productName, jb.1)) ∘ fun p => ((i, p) : Nat × ProductData)) =
          (fun nm => (nm, i)) ∘ fun p => p.productName := rfl
      rw [this, ← List.map_map]
      refine List.Nodup.map ?_ (h f (List.mem_cons_self _ _))
      intro a b hab
      simpa using congrArg Prod.fst hab
    · intro a ha hb
      rw [List.map_map] at ha
      obtain ⟨p, _, rfl⟩ := List.mem_map.mp ha
      obtain ⟨jb, hjb, heq⟩ := List.mem_map.mp hb
      have hbound := (cJobs_bound rest (i + 1) jb hjb).1
      have hsnd : jb.1 = i := by simpa using congrArg Prod.snd heq
      omega

theorem cFold_inv (nf : Nat) :
    ∀ (jobs : List (Nat × ProductData)) (S : CStructure),
      (∀ jb ∈ jobs, jb.1 < nf) →
      ((jobs.map fun jb => (jb.2.productName, jb.1)).Nodup) →
      (∀ jb ∈ jobs, CFresh S jb.2.productName jb.1) →
      CLenOK nf S → CSumOK S →
      CSumOK (jobs.foldl (fun S jb => cInsertItem S nf jb.1 jb.2) S) := by
  intro jobs
  induction jobs with
  | nil => intro S _ _ _ _ hok; exact hok
  | cons jb rest ih =>
    intro S hbound hnodup hfresh hlen hok
    rw [List.foldl_cons]
    have hb : jb.1 < nf := hbound jb (List.mem_cons_self _ _)
    have hfr : CFresh S jb.2.productName jb.1 := hfresh jb (List.mem_cons_self _ _)
    rw [List.map_cons, List.nodup_cons] at hnodup
    refine ih _ (fun jb' h' => hbound jb' (List.mem_cons_of_mem _ h'))
      hnodup.2 ?_ (cInsertMajor_len _ _ _ nf jb.1 _ S hlen)
      (cInsertMajor_SumOK _ _ _ nf jb.1 _ hb S hlen hok hfr)
    intro jb' hjb'
    have hkey : ¬(jb'.2.productName = jb.2.productName ∧ jb'.1 = jb.1) := by
      intro ⟨h1, h2⟩
      exact hnodup.1 (List.mem_map.mpr ⟨jb', hjb', by rw [h1, h2]⟩)
    exact cInsertMajor_fresh _ _ _ _ nf jb.1 jb'.1 _ hb hkey S hlen
      (hfresh jb' (List.mem_cons_of_mem _ hjb'))

/-- C1 (amended): in the aggregated comparison tree, provided each product
name appears at most once within each period's item list, every parent tuple
equals the exact sum of its children's tuples at every period index: each
major's (netQuantity, netAmount, netCount) triple is the sum of its minors'
triples and each minor's triple is the sum of its products' triples
(`CSumOK`).  Without that hypothesis the minor = Σ products identity fails,
because the product leaf's per-period tuple is assigned, not accumulated. -/
theorem comparison_child_sums (files : List FileData)
    (h : ∀ f ∈ files, (f.data.map (fun p => p.productName)).Nodup) :
    CSumOK (buildCStructure files) := by
  rw [buildC_eq_jobs]
  refine cFold_inv files.length (cJobs 0 files) [] ?_ (cJobs_keys_nodup files h 0) ?_ ?_ ?_
  · intro jb hjb
    have := (cJobs_bound files 0 jb hjb).2
    omega
  · intro jb _ kv hkv
    simp at hkv
  · intro kv hkv
    simp at hkv
  · intro kv hkv
    simp at hkv

def c1wItem : ProductData :=
  ⟨"가방걸이 W", 1, 0, 1, 1, 0, 1, 2, 0, 2, some "악세서리", some "기타", none⟩

def c1wFd : FileData := ⟨"f", [c1wItem], 2, 2, 1, 1⟩

/-- Witness for C1 at a concrete one-item period. -/
theorem comparison_child_sums_witness : CSumOK (buildCStructure [c1wFd]) :=
  comparison_child_sums [c1wFd] (by
    intro f hf
    simp only [List.mem_singleton] at hf
    subst hf
    simp [c1wFd])

def c1cItem1 : ProductData :=
  ⟨"가방걸이 A", 1, 0, 1, 1, 0, 1, 1, 0, 1, some "악세서리", some "기타", none⟩

def c1cItem2 : ProductData :=
  ⟨"가방걸이 A", 2, 0, 2, 2, 0, 2, 2, 0, 2, some "악세서리", some "기타", none⟩

def c1cFd : FileData := ⟨"f", [c1cItem1, c1cItem2], 3, 3, 3, 3⟩

def c1cMinorE : CMinorEntry :=
  ⟨[zeroTriple + (1, 1, 1) + (2, 2, 2)], [⟨"가방걸이 A", [(2, 2, 2)]⟩]⟩

def c1cMajorE : CMajorEntry :=
  ⟨[zeroTriple + (1, 1, 1) + (2, 2, 2)], [("기타", c1cMinorE)]⟩

/-- C1 counterexample: when the same product name appears twice within one
period, its minor accumulates both line items but the product leaf keeps only
the last one, so the minor's tuple (3,3,3) differs from the products' sum
(2,2,2): the child-sums invariant fails as universally stated. -/
theorem comparison_child_sums_counterexample :
    buildCStructure [c1cFd] = [("악세서리", c1cMajorE)] ∧
    ¬ CSumOK (buildCStructure [c1cFd]) := by
  have hstruct : buildCStructure [c1cFd] = [("악세서리", c1cMajorE)] := rfl
  refine ⟨hstruct, ?_⟩
  intro h
  have h2 := (h ("악세서리", c1cMajorE)
    (by rw [hstruct]; exact List.mem_singleton.mpr rfl)).2
    ("기타", c1cMinorE) (List.mem_singleton.mpr rfl) 0
  simp only [c1cMinorE, statsAt, productsSumAt, listProdSumAt, List.map, List.sum_cons,
    List.sum_nil, List.getD, zeroTriple, Prod.mk.injEq] at h2
  norm_num at h2

/-! ## Comparison-table sorting and filtering
(src/components/ComparisonDashboard.tsx hierarchicalData, lines 138–202) -/

inductive CSortKey where
  | amount
  | quantity
  | count
  | productName
  | growthAmount
  | growthQuantity
  deriving Repr, DecidableEq

/-- getSortValue: with exactly two files the growth keys sort by the signed
delta of the selected metric; otherwise the selected metric is summed across
all files (amount by default). -/
def getSortValue (isTwoFiles : Bool) (key : CSortKey) (stats : List Triple) : ℚ :=
  if isTwoFiles = true ∧ key = CSortKey.growthAmount then
    tripleAmt (statsAt stats 1) - tripleAmt (statsAt stats 0)
  else if isTwoFiles = true ∧ key = CSortKey.growthQuantity then
    tripleQty (statsAt stats 1) - tripleQty (statsAt stats 0)
  else
    (stats.map fun s =>
      if key = CSortKey.quantity then tripleQty s
      else if key = CSortKey.count then tripleCnt s
      else tripleAmt s).sum

/-- The comparison-table comparator (the same `sortFn` body is applied at all
three levels): name sort by the locale comparison, numeric sort by
getSortValue; `a` precedes `b` when the JS comparator is ≤ 0. -/
def cSortLe (koCmp : String → String → ℤ) (isTwoFiles : Bool) (key : CSortKey)
    (dir : SortDirection) (aName : String) (aStats : List Triple)
    (bName : String) (bStats : List Triple) : Bool :=
  match key with
  | CSortKey.productName =>
    (match dir with
     | .asc => decide (koCmp aName bName ≤ 0)
     | .desc => decide (koCmp bName aName ≤ 0))
  | _ =>
    (match dir with
     | .asc =>
       decide (getSortValue isTwoFiles key aStats - getSortValue isTwoFiles key bStats ≤ 0)
     | .desc =>
       decide (getSortValue isTwoFiles key bStats - getSortValue isTwoFiles key aStats ≤ 0))

def cMajorLe (koCmp : String → String → ℤ) (isTwo : Bool) (key : CSortKey)
    (dir : SortDirection) (a b : String × CMajorEntry) : Bool :=
  cSortLe koCmp isTwo key dir a.1 a.2.stats b.1 b.2.stats

def cMinorLe (koCmp : String → String → ℤ) (isTwo : Bool) (key : CSortKey)
    (dir : SortDirection) (a b : String × CMinorEntry) : Bool :=
  cSortLe koCmp isTwo key dir a.1 a.2.stats b.1 b.2.stats

def cProdSortLe (koCmp : String → String → ℤ) (isTwo : Bool) (key : CSortKey)
    (dir : SortDirection) (a b : CProdEntry) : Bool :=
  cSortLe koCmp isTwo key dir a.name a.stats b.name b.stats

structure CMinorOut where
  name : String
  stats : List Triple
  products : List CProdEntry
  deriving Repr, DecidableEq

structure CMajorOut where
  name : String
  stats : List Triple
  minors : List CMinorOut
  deriving Repr, DecidableEq

/-- Sort the filtered structure's sibling lists at every level with the same
comparator and shape the rows for display. -/
def cShapeOut (koCmp : String → String → ℤ) (isTwo : Bool) (key : CSortKey)
    (dir : SortDirection) (L : List (String × CMajorEntry)) : List CMajorOut :=
  (L.mergeSort (cMajorLe koCmp isTwo key dir)).map fun kv =>
    { name := kv.1
      stats := kv.2.stats
      minors := (kv.2.minors.mergeSort (cMinorLe koCmp isTwo key dir)).map fun mkv =>
        { name := mkv.1
          stats := mkv.2.stats
          products := mkv.2.products.mergeSort (cProdSortLe koCmp isTwo key dir) } }

/-- ComparisonDashboard.tsx hierarchicalData: build the structure, filter
majors by the search term, and sort the sibling lists at every level with the
same comparator. -/
def comparisonHierarchicalData (files : List FileData) (koCmp : String → String → ℤ)
    (key : CSortKey) (dir : SortDirection) (searchTerm : String) : List CMajorOut :=
  cShapeOut koCmp (decide (files.length = 2)) key dir
    ((buildCStructure files).filter fun kv =>
      strContains (strToLower kv.1) (strToLower searchTerm))

/-- The signed two-period delta of the metric selected by a growth key. -/
def deltaOf (key : CSortKey) (stats : List Triple) : ℚ :=
  match key with
  | CSortKey.growthQuantity => tripleQty (statsAt stats 1) - tripleQty (statsAt stats 0)
  | _ => tripleAmt (statsAt stats 1) - tripleAmt (statsAt stats 0)

def dirLe (dir : SortDirection) (x y : ℚ) : Prop :=
  match dir with
  | SortDirection.asc => x ≤ y
  | SortDirection.desc => y ≤ x

/-- Siblings at every tree level are ordered by the signed delta in the
requested direction. -/
def SortedByDelta (key : CSortKey) (dir : SortDirection) (out : List CMajorOut) : Prop :=
  List.Pairwise (fun a b => dirLe dir (deltaOf key a.stats) (deltaOf key b.stats)) out ∧
  ∀ m ∈ out,
    List.Pairwise (fun a b => dirLe dir (deltaOf key a.stats) (deltaOf key b.stats)) m.minors ∧
    ∀ mi ∈ m.minors,
      List.Pairwise (fun a b => dirLe dir (deltaOf key a.stats) (deltaOf key b.stats))
        mi.products

theorem mergeSort_pairwise_le {α : Type} (v : α → ℚ) (l : List α) :
    List.Pairwise (fun a b => v a ≤ v b) (l.mergeSort fun a b => decide (v a ≤ v b)) := by
  have h := @List.sorted_mergeSort _ (fun a b => decide (v a ≤ v b))
    (fun a b c hab hbc => by
      simp only [decide_eq_true_eq] at hab hbc ⊢
      exact le_trans hab hbc)
    (fun a b => by simp [le_total])
    l
  exact h.imp fun hab => by simpa using hab

theorem cSortLe_growth (koCmp : String → String → ℤ) (key : CSortKey)
    (dir : SortDirection)
    (hkey : key = CSortKey.growthAmount ∨ key = CSortKey.growthQuantity)
    (aN : String) (aS : List Triple) (bN : String) (bS : List Triple) :
    cSortLe koCmp true key dir aN aS bN bS =
      (match dir with
       | SortDirection.asc => decide (deltaOf key aS ≤ deltaOf key bS)
       | SortDirection.desc => decide (deltaOf key bS ≤ deltaOf key aS)) := by
  rcases hkey with rfl | rfl <;> cases dir <;>
    simp [cSortLe, getSortValue, deltaOf, decide_eq_decide, sub_nonpos]

attribute [irreducible] deltaOf

theorem mergeSort_delta_pairwise_asc {α : Type} (stf : α → List Triple)
    (le : α → α → Bool) (key : CSortKey)
    (hle : le = fun a b => decide (deltaOf key (stf a) ≤ deltaOf key (stf b)))
    (l : List α) :
    List.Pairwise (fun a b => deltaOf key (stf a) ≤ deltaOf key (stf b))
      (l.mergeSort le) := by
  rw [hle]
  exact mergeSort_pairwise_le (fun x => deltaOf key (stf x)) l

theorem mergeSort_delta_pairwise_desc {α : Type} (stf : α → List Triple)
    (le : α → α → Bool) (key : CSortKey)
    (hle : le = fun a b => decide (deltaOf key (stf b) ≤ deltaOf key (stf a)))
    (l : List α) :
    List.Pairwise (fun a b => deltaOf key (stf b) ≤ deltaOf key (stf a))
      (l.mergeSort le) := by
  have hfun : le = fun a b => decide (-deltaOf key (stf a) ≤ -deltaOf key (stf b)) := by
    rw [hle]
    funext a b
    simp only [decide_eq_decide]
    exact (neg_le_neg_iff).symm
  rw [hfun]
  exact (mergeSort_pairwise_le (fun x => -deltaOf key (stf x)) l).imp
    fun hab => neg_le_neg_iff.mp hab

theorem sortedByDelta_shape (koCmp : String → String → ℤ) (key : CSortKey)
    (dir : SortDirection)
    (hkey : key = CSortKey.growthAmount ∨ key = CSortKey.growthQuantity)
    (L : List (String × CMajorEntry)) :
    SortedByDelta key dir (cShapeOut koCmp true key dir L) := by
  cases dir
  case asc =>
    unfold cShapeOut
    refine ⟨?_, ?_⟩
    · rw [List.pairwise_map]
      exact mergeSort_delta_pairwise_asc (fun kv => kv.2.stats)
        (cMajorLe koCmp true key SortDirection.asc) key
        (by
          funext a b
          exact cSortLe_growth koCmp key SortDirection.asc hkey a.1 a.2.stats b.1 b.2.stats) _
    · intro m hm
      obtain ⟨kv, _, rfl⟩ := List.mem_map.mp hm
      dsimp only
      refine ⟨?_, ?_⟩
      · rw [List.pairwise_map]
        exact mergeSort_delta_pairwise_asc (fun mkv => mkv.2.stats)
          (cMinorLe koCmp true key SortDirection.asc) key
          (by
            funext a b
            exact cSortLe_growth koCmp key SortDirection.asc hkey a.1 a.2.stats
              b.1 b.2.stats) _
      · intro mi hmi
        obtain ⟨mkv, _, rfl⟩ := List.mem_map.mp hmi
        dsimp only
        exact mergeSort_delta_pairwise_asc (fun pe => pe.stats)
          (cProdSortLe koCmp true key SortDirection.asc) key
          (by
            funext a b
            exact cSortLe_growth koCmp key SortDirection.asc hkey a.name a.stats
              b.name b.stats) _
  case desc =>
    unfold cShapeOut
    refine ⟨?_, ?_⟩
    · rw [List.pairwise_map]
      exact mergeSort_delta_pairwise_desc (fun kv => kv.2.stats)
        (cMajorLe koCmp true key SortDirection.desc) key
        (by
          funext a b
          exact cSortLe_growth koCmp key SortDirection.desc hkey a.1 a.2.stats
            b.1 b.2.stats) _
    · intro m hm
      obtain ⟨kv, _, rfl⟩ := List.mem_map.mp hm
      dsimp only
      refine ⟨?_, ?_⟩
      · rw [List.pairwise_map]
        exact mergeSort_delta_pairwise_desc (fun mkv => mkv.2.stats)
          (cMinorLe koCmp true key SortDirection.desc) key
          (by
            funext a b
            exact cSortLe_growth koCmp key SortDirection.desc hkey a.1 a.2.stats
              b.1 b.2.stats) _
      · intro mi hmi
        obtain ⟨mkv, _, rfl⟩ := List.mem_map.mp hmi
        dsimp only
        exact mergeSort_delta_pairwise_desc (fun pe => pe.stats)
          (cProdSortLe koCmp true key SortDirection.desc) key
          (by
            funext a b
            exact cSortLe_growth koCmp key SortDirection.desc hkey a.name a.stats
              b.name b.stats) _

/-- C7: with exactly two periods and a growth sort key, sibling nodes at every
tree level — the major list, each major's minor list, and each minor's product
list — are ordered by the signed delta (curr - prev) of the selected metric,
not by percentage, with the same comparator applied at every level in the
requested direction. -/
theorem growth_sort_by_signed_delta (files : List FileData)
    (koCmp : String → String → ℤ) (key : CSortKey) (dir : SortDirection)
    (term : String) (h2 : files.length = 2)
    (hkey : key = CSortKey.growthAmount ∨ key = CSortKey.growthQuantity) :
    SortedByDelta key dir (comparisonHierarchicalData files koCmp key dir term) := by
  have hisTwo : decide (files.length = 2) = true := by simp [h2]
  unfold comparisonHierarchicalData
  rw [hisTwo]
  exact sortedByDelta_shape koCmp key dir hkey _

def c7FdA : FileData := ⟨"A", [c1wItem], 2, 2, 1, 1⟩

def c7FdB : FileData := ⟨"B", [c1wItem], 2, 2, 1, 1⟩

/-- Witness for C7 at a concrete two-period comparison. -/
theorem growth_sort_by_signed_delta_witness :
    SortedByDelta CSortKey.growthAmount SortDirection.desc
      (comparisonHierarchicalData [c7FdA, c7FdB] (fun _ _ => 0)
        CSortKey.growthAmount SortDirection.desc "") :=
  growth_sort_by_signed_delta [c7FdA, c7FdB] (fun _ _ => 0) CSortKey.growthAmount
    SortDirection.desc "" rfl (Or.inl rfl)
